import Mathlib

/-!
Shallow embedding of the obsidian-get-stock-information plugin core
(portfolio table reconciliation engine, quote provider adapters, Markdown
table locator/parser, single-quote rendering), translated from the
TypeScript source (src/unnamed/part_000, the multi-provider variant, and
src/src/main.ts for the Finnhub adapter).

Modelling conventions:
- JavaScript numbers are modelled by `JSNum`: either a finite rational or
  one of NaN / +Infinity / -Infinity.  Exact rational arithmetic stands in
  for IEEE doubles; all concrete values exercised by the claims are exact
  in both.  JavaScript's negative zero is identified with zero.
- Network calls (`requestUrl`) are modelled by oracle function parameters:
  a provider response oracle maps a URL/candidate to its response, `none`
  meaning the request threw.  `Date.parse` is an oracle returning `none`
  for NaN (by ECMA-262 its result is a finite time value or NaN).
- Thrown JavaScript errors are modelled as `Except.error` carrying the
  message string; every thrown value in the modelled code is an `Error`.
- `undefined`/`null` fields are `Option.none`.
- String routines (`trim`, `\s`, `split`, `toUpperCase`) are modelled on
  the character list underlying the string; `toUpperCase`/`toLowerCase`
  are ASCII (the symbols and header names concerned are ASCII).
-/

namespace StockInfo

/-- An exact rational written as an integer numerator over a natural
denominator, without normalization.  Every `Frac` the embedding builds
has a positive denominator; arithmetic is defined by the usual
cross-multiplication formulas and certified against `ℚ` by the
`toRat` lemmas below (the batteries `Rat` operations are `irreducible`,
so a transparent fraction representation is used instead). -/
structure Frac where
  num : Int
  den : Nat
deriving DecidableEq, Repr

instance (n : Nat) : OfNat Frac n := ⟨⟨Int.ofNat n, 1⟩⟩

namespace Frac

/-- The rational value of a fraction. -/
def toRat (f : Frac) : ℚ := (f.num : ℚ) / (f.den : ℚ)

/-- Value is zero (for a positive denominator). -/
def isZero (f : Frac) : Bool := f.num = 0

/-- Value is strictly negative (for a positive denominator). -/
def isNeg (f : Frac) : Bool := f.num < 0

/-- Value is strictly positive (for a positive denominator). -/
def isPos (f : Frac) : Bool := 0 < f.num

/-- Value-level strict order (for positive denominators). -/
def lt (a b : Frac) : Bool := a.num * (b.den : Int) < b.num * (a.den : Int)

/-- Negation. -/
def neg (a : Frac) : Frac := ⟨-a.num, a.den⟩

/-- Absolute value. -/
def abs (a : Frac) : Frac := ⟨|a.num|, a.den⟩

/-- Addition. -/
def add (a b : Frac) : Frac :=
  ⟨a.num * (b.den : Int) + b.num * (a.den : Int), a.den * b.den⟩

/-- Multiplication. -/
def mul (a b : Frac) : Frac := ⟨a.num * b.num, a.den * b.den⟩

/-- Division by a fraction with nonzero numerator:
`(a.num / a.den) / (b.num / b.den) = (a.num * b.den) / (a.den * b.num)`,
with the sign moved into the numerator. -/
def div (a b : Frac) : Frac :=
  ⟨a.num * (b.den : Int) * Int.sign b.num, a.den * b.num.natAbs⟩

/-- Floor of the value (for a positive denominator): floor division of
the numerator by the denominator. -/
def floor (a : Frac) : Int := Int.fdiv a.num (a.den : Int)

end Frac

/-- A JavaScript number: NaN, an infinity, or a finite value (modelled as
an exact rational; exact arithmetic stands in for IEEE doubles, and all
values the claims exercise are exact in both). -/
inductive JSNum where
  | nan : JSNum
  | inf : JSNum
  | ninf : JSNum
  | fin : Frac → JSNum
deriving DecidableEq, Repr

namespace JSNum

/-- `Number.isFinite`. -/
def isFiniteB : JSNum → Bool
  | .fin _ => true
  | _ => false

/-- JavaScript truthiness of a number: `0` and `NaN` are falsy. -/
def jsTruthy : JSNum → Bool
  | .fin q => !q.isZero
  | .nan => false
  | .inf => true
  | .ninf => true

/-- JavaScript addition. -/
def add : JSNum → JSNum → JSNum
  | .nan, _ => .nan
  | _, .nan => .nan
  | .inf, .ninf => .nan
  | .ninf, .inf => .nan
  | .inf, _ => .inf
  | _, .inf => .inf
  | .ninf, _ => .ninf
  | _, .ninf => .ninf
  | .fin a, .fin b => .fin (a.add b)

/-- JavaScript negation. -/
def neg : JSNum → JSNum
  | .nan => .nan
  | .inf => .ninf
  | .ninf => .inf
  | .fin a => .fin a.neg

/-- JavaScript subtraction. -/
def sub (a b : JSNum) : JSNum := add a (neg b)

/-- JavaScript multiplication. -/
def mul : JSNum → JSNum → JSNum
  | .nan, _ => .nan
  | _, .nan => .nan
  | .inf, .inf => .inf
  | .inf, .ninf => .ninf
  | .ninf, .inf => .ninf
  | .ninf, .ninf => .inf
  | .inf, .fin b => if b.isZero then .nan else if b.isPos then .inf else .ninf
  | .fin a, .inf => if a.isZero then .nan else if a.isPos then .inf else .ninf
  | .ninf, .fin b => if b.isZero then .nan else if b.isPos then .ninf else .inf
  | .fin a, .ninf => if a.isZero then .nan else if a.isPos then .ninf else .inf
  | .fin a, .fin b => .fin (a.mul b)

/-- JavaScript division (with `-0` identified with `0`, so `x / 0` for
negative `x` gives `-Infinity` and `0 / Infinity` gives `0`). -/
def div : JSNum → JSNum → JSNum
  | .nan, _ => .nan
  | _, .nan => .nan
  | .inf, .inf => .nan
  | .inf, .ninf => .nan
  | .ninf, .inf => .nan
  | .ninf, .ninf => .nan
  | .inf, .fin b => if b.isNeg then .ninf else .inf
  | .ninf, .fin b => if b.isNeg then .inf else .ninf
  | .fin _, .inf => .fin 0
  | .fin _, .ninf => .fin 0
  | .fin a, .fin b =>
    if b.isZero then (if a.isZero then .nan else if a.isPos then .inf else .ninf)
    else .fin (a.div b)

/-- JavaScript `>` comparison (false whenever NaN is involved). -/
def gt : JSNum → JSNum → Bool
  | .nan, _ => false
  | _, .nan => false
  | .inf, .inf => false
  | .inf, _ => true
  | .ninf, _ => false
  | .fin _, .inf => false
  | .fin _, .ninf => true
  | .fin a, .fin b => b.lt a

end JSNum

/-- The character class `\s` of JavaScript regular expressions (also the
set trimmed by `String.prototype.trim`). -/
def isJsSpace (c : Char) : Bool :=
  c = ' ' || c.val = 9 || c.val = 10 || c.val = 11 || c.val = 12 || c.val = 13 ||
  c.val = 0xa0 || c.val = 0x1680 || (0x2000 ≤ c.val && c.val ≤ 0x200a) ||
  c.val = 0x2028 || c.val = 0x2029 || c.val = 0x202f || c.val = 0x205f ||
  c.val = 0x3000 || c.val = 0xfeff

/-- Drop leading JavaScript whitespace from a character list. -/
def dropJsWS (cs : List Char) : List Char := cs.dropWhile isJsSpace

/-- `String.prototype.trim`. -/
def jsTrim (s : String) : String :=
  String.mk (((s.data.dropWhile isJsSpace).reverse.dropWhile isJsSpace).reverse)

/-- `String.prototype.toUpperCase` (ASCII; the symbols concerned are
ASCII). -/
def jsToUpper (s : String) : String := String.mk (s.data.map Char.toUpper)

/-- `String.prototype.toLowerCase` (ASCII). -/
def jsToLower (s : String) : String := String.mk (s.data.map Char.toLower)

/-- `normalizeSymbol` (part_000 line 22): trim and upper-case. -/
def normalizeSymbol (symbol : String) : String := jsToUpper (jsTrim symbol)

/-- The character strip performed by `parseNumber` (part_000 line 26):
`value.replace(/[$,%\s]/g, "").replace(/,/g, "")` — removes dollar signs,
commas, percent signs and whitespace (the second replace is subsumed by
the first). -/
def stripMoneyChars (s : String) : String :=
  String.mk (s.data.filter (fun c => !(c = '$' || c = ',' || c = '%' || isJsSpace c)))

/-- Numeric value of a list of decimal digit characters. -/
def digitsToNat (ds : List Char) : Nat :=
  ds.foldl (fun a c => a * 10 + (c.toNat - '0'.toNat)) 0

/-- `Number.parseFloat`: skip leading whitespace, optional sign, then the
longest decimal-literal prefix (digits, optional fraction, optional
exponent) or the literal `Infinity`; NaN when no prefix parses.  Exact
rational arithmetic stands in for the double rounding of the result. -/
def jsParseFloat (s : String) : JSNum :=
  let cs := s.data.dropWhile isJsSpace
  let signAndRest : Bool × List Char :=
    match cs with
    | '-' :: r => (true, r)
    | '+' :: r => (false, r)
    | _ => (false, cs)
  let neg := signAndRest.1
  let cs1 := signAndRest.2
  if List.isPrefixOf ['I','n','f','i','n','i','t','y'] cs1 then
    if neg then JSNum.ninf else JSNum.inf
  else
    let intDs := cs1.takeWhile Char.isDigit
    let cs2 := cs1.dropWhile Char.isDigit
    let fracAndRest : List Char × List Char :=
      match cs2 with
      | '.' :: r => (r.takeWhile Char.isDigit, r.dropWhile Char.isDigit)
      | _ => ([], cs2)
    let fracDs := fracAndRest.1
    let cs3 := fracAndRest.2
    if intDs.isEmpty && fracDs.isEmpty then JSNum.nan
    else
      let mant : Frac :=
        ⟨(digitsToNat intDs : Int) * ((10 : Int) ^ fracDs.length) +
           (digitsToNat fracDs : Int),
         10 ^ fracDs.length⟩
      let expPart : Option (Bool × Nat) :=
        match cs3 with
        | 'e' :: r | 'E' :: r =>
          let esignAndRest : Bool × List Char :=
            match r with
            | '-' :: r2 => (true, r2)
            | '+' :: r2 => (false, r2)
            | _ => (false, r)
          let eds := esignAndRest.2.takeWhile Char.isDigit
          if eds.isEmpty then none else some (esignAndRest.1, digitsToNat eds)
        | _ => none
      let scaled : Frac :=
        match expPart with
        | none => mant
        | some (true, e) => ⟨mant.num, mant.den * 10 ^ e⟩
        | some (false, e) => ⟨mant.num * (10 : Int) ^ e, mant.den⟩
      JSNum.fin (if neg then scaled.neg else scaled)

/-- `parseNumber` (part_000 lines 24-29): empty input gives no value;
otherwise strip `[$,%\s]` characters, `parseFloat` the remainder, and keep
the result only when it is a finite number.  A total function — it never
raises. -/
def parseNumber (value : String) : Option Frac :=
  if value = "" then none
  else
    match jsParseFloat (stripMoneyChars value) with
    | JSNum.fin q => some q
    | _ => none

/-- Left-pad a digit list with zeros up to width `d`. -/
def padZeros (ds : List Char) (d : Nat) : List Char :=
  List.replicate (d - ds.length) '0' ++ ds

/-- Digit chunks of size three (last chunk may be shorter), used for
thousands grouping. -/
def chunk3 : List Char → List (List Char)
  | [] => []
  | a :: b :: c :: rest => [a, b, c] :: chunk3 rest
  | short => [short]

/-- Group the digits of an integer-part digit list with a comma every
three digits from the right (the `en-US` thousands grouping of
`Intl.NumberFormat`). -/
def groupThousands (ds : List Char) : List Char :=
  (List.intercalate [','] (chunk3 ds.reverse)).reverse

/-- `⌊|x| * scale + 1/2⌋` as a natural number: the scaled
round-half-away-from-zero kernel shared by the fixed-digit formatters. -/
def roundHalfScaled (x : Frac) (scale : Nat) : Nat :=
  (((x.abs.mul ⟨(scale : Int), 1⟩).add ⟨1, 2⟩).floor).toNat

/-- `Intl.NumberFormat("en-US", {minimumFractionDigits: d,
maximumFractionDigits: d}).format` on a finite value: round half away
from zero to `d` fractional digits, group the integer part by thousands,
always show exactly `d` fractional digits. -/
def formatFin (x : Frac) (d : Nat) : String :=
  let sign := if x.isNeg then "-" else ""
  let scale : ℕ := 10 ^ d
  let n : ℕ := roundHalfScaled x scale
  let ip := n / scale
  let fp := n % scale
  let ipStr := String.mk (groupThousands (Nat.toDigits 10 ip))
  let fpStr := if d = 0 then "" else "." ++ String.mk (padZeros (Nat.toDigits 10 fp) d)
  sign ++ ipStr ++ fpStr

/-- `formatNumber` (part_000 lines 31-35): the en-US
`Intl.NumberFormat` with fixed fraction digits; `NaN` renders as
`"NaN"` and the infinities as `"∞"` / `"-∞"`. -/
def formatNumber (v : JSNum) (fractionDigits : Nat := 2) : String :=
  match v with
  | .fin q => formatFin q fractionDigits
  | .nan => "NaN"
  | .inf => "∞"
  | .ninf => "-∞"

/-- `Number.prototype.toFixed` on a finite value: the sign of `x`,
then the closest `n / 10^d` to `|x|` (ties pick the larger `n`),
rendered with exactly `d` fractional digits and no grouping. -/
def toFixedFin (x : Frac) (d : Nat) : String :=
  let sign := if x.isNeg then "-" else ""
  let scale : ℕ := 10 ^ d
  let n : ℕ := roundHalfScaled x scale
  let ip := n / scale
  let fp := n % scale
  let fpStr := if d = 0 then "" else "." ++ String.mk (padZeros (Nat.toDigits 10 fp) d)
  sign ++ String.mk (Nat.toDigits 10 ip) ++ fpStr

/-- `Number.prototype.toFixed` as used in the callout spread. -/
def jsToFixed (v : JSNum) (d : Nat) : String :=
  match v with
  | .fin q => toFixedFin q d
  | .nan => "NaN"
  | .inf => "Infinity"
  | .ninf => "-Infinity"

/-- The string JavaScript produces for the value `+(q.toFixed(d))`:
round as `toFixed` does, then render the result with trailing fractional
zeros removed (the shortest decimal form of a small-denominator value). -/
def plusToFixedString (x : Frac) (d : Nat) : String :=
  let scale : ℕ := 10 ^ d
  let n : ℕ := roundHalfScaled x scale
  let sign := if x.isNeg && n ≠ 0 then "-" else ""
  let ip := n / scale
  let fp := n % scale
  let fpDigits := (padZeros (Nat.toDigits 10 fp) d).reverse.dropWhile (· = '0') |>.reverse
  let fpStr := if fpDigits.isEmpty then "" else "." ++ String.mk fpDigits
  sign ++ String.mk (Nat.toDigits 10 ip) ++ fpStr

/-- `formatLongNumber` (part_000 lines 37-41): the K/M/B/T magnitude
formatter; it falls through all three branches for `NaN` and then
returns `undefined` (modelled as `none`). -/
def formatLongNumber (n : JSNum) : Option String :=
  match n with
  | .fin q =>
    if q.lt ⟨1000000000, 1⟩ then some (plusToFixedString (q.div ⟨1000000, 1⟩) 3 ++ "M")
    else if q.lt ⟨1000000000000, 1⟩ then
      some (plusToFixedString (q.div ⟨1000000000, 1⟩) 3 ++ "B")
    else some (plusToFixedString (q.div ⟨1000000000000, 1⟩) 1 ++ "T")
  | .inf => some "InfinityT"
  | .ninf => some "-InfinityM"
  | .nan => none

/-- Split a character list on a separator character; like
`String.prototype.split` with a one-character separator, the empty list
yields one empty piece. -/
def splitOnChar (sep : Char) : List Char → List (List Char)
  | [] => [[]]
  | c :: cs =>
    if c = sep then [] :: splitOnChar sep cs
    else
      match splitOnChar sep cs with
      | [] => [[c]]
      | p :: ps => (c :: p) :: ps

/-- `isTableRow` (part_000 lines 186-187): contains a pipe and is not
blank. -/
def isTableRow (line : String) : Bool :=
  line.data.contains '|' && !(line.data.all isJsSpace)

/-- Consume one optional leading colon (the `:?` of the separator
regexp). -/
def dropColon (cs : List Char) : List Char :=
  match cs with
  | c :: r => if c = ':' then r else c :: r
  | [] => []

/-- One cell of the separator regexp between pipes:
`\s*:?-{3,}:?\s*`. -/
def isSepChunkPiece (p : List Char) : Bool :=
  let cs1 := dropColon (dropJsWS p)
  let dashes := cs1.takeWhile (fun c => c = '-')
  let rest := cs1.dropWhile (fun c => c = '-')
  decide (3 ≤ dashes.length) && decide (dropJsWS (dropColon rest) = [])

/-- `isTableSeparator` (part_000 lines 182-185): the regexp
`^\s*\|?\s*:?-{3,}:?\s*(\|\s*:?-{3,}:?\s*)+\|?\s*$`, decided by
splitting the line on `|`: an optional whitespace-only piece before a
leading pipe and after a trailing pipe, and at least two dash cells in
between. -/
def isTableSeparator (line : String) : Bool :=
  let ps := splitOnChar '|' line.data
  if ps.length < 2 then false
  else
    let ps1 := if dropJsWS (ps.headD []) = [] then ps.tail else ps
    let ps2 := if dropJsWS (ps1.getLastD ['-']) = [] then ps1.dropLast else ps1
    decide (2 ≤ ps2.length) && ps2.all isSepChunkPiece

/-- `splitRow` (part_000 lines 188-193): trim, strip one leading and one
trailing pipe, split the rest on pipes and trim each cell. -/
def splitRow (line : String) : List String :=
  let cs := (jsTrim line).data
  let cs1 := match cs with
    | '|' :: r => r
    | _ => cs
  let cs2 := if cs1.getLast? = some '|' then cs1.dropLast else cs1
  (splitOnChar '|' cs2).map (fun p => jsTrim (String.mk p))

/-- The scan of part_000 lines 199-208: the first index `i` (with
`i + 1 < lines.length`) whose line is a table row and whose successor is
a table separator. -/
def findTableStart : List String → Option Nat
  | a :: b :: rest =>
    if isTableRow a && isTableSeparator b then some 0
    else (findTableStart (b :: rest)).map (· + 1)
  | _ => none

/-- Length of the leading run of table rows (the `while` loop of
part_000 line 204). -/
def countTableRows : List String → Nat
  | [] => 0
  | l :: ls => if isTableRow l then countTableRows ls + 1 else 0

/-- The table locator: returns `(tableStart, tableEnd, header)` exactly as
computed by part_000 lines 195-213, or `none` when no table is found. -/
def locateTable (lines : List String) : Option (Nat × Nat × List String) :=
  (findTableStart lines).map fun i =>
    (i, i + 1 + countTableRows (lines.drop (i + 2)), splitRow (lines.getD i ""))

/-- `headerIndex` (part_000 lines 215-218): first header cell whose
trimmed, lower-cased text is in the synonym list (`none` for the
JavaScript `-1`). -/
def headerIndex (header : List String) (names : List String) : Option Nat :=
  header.findIdx? (fun h => names.contains (jsToLower (jsTrim h)))

/-- Synonyms of the ticker role (part_000 lines 220-225). -/
def tickerNames : List String := ["fund", "ticker", "symbol", "fund/ticker"]

/-- Synonyms of the shares role (part_000 lines 226-231). -/
def sharesNames : List String := ["shares", "qty", "quantity", "units"]

/-- Synonyms of the price role (part_000 lines 232-236). -/
def priceNames : List String := ["current price", "price", "last price"]

/-- Synonyms of the value role (part_000 line 237). -/
def valueNames : List String := ["value", "market value"]

/-- Synonyms of the allocation role (part_000 lines 238-242). -/
def allocationNames : List String := ["allocation", "allocation %", "alloc %"]

/-- The `Quote` record (part_000 lines 4-20): symbol plus optional
display/currency strings and optional numeric fields. -/
structure Quote where
  symbol : String
  shortName : Option String := none
  longName : Option String := none
  currency : Option String := none
  bid : Option JSNum := none
  ask : Option JSNum := none
  regularMarketPrice : Option JSNum := none
  regularMarketPreviousClose : Option JSNum := none
  regularMarketDayLow : Option JSNum := none
  regularMarketDayHigh : Option JSNum := none
  fiftyTwoWeekLow : Option JSNum := none
  fiftyTwoWeekHigh : Option JSNum := none
  marketCap : Option JSNum := none
  regularMarketVolume : Option JSNum := none
  regularMarketTime : Option JSNum := none
deriving DecidableEq, Repr

/-- A JavaScript `Map<string, Quote>` as an insertion-ordered
association list with unique keys. -/
abbrev QuoteMap : Type := List (String × Quote)

/-- `Map.prototype.set`: replace in place if the key exists, else append. -/
def mapSet (m : QuoteMap) (k : String) (v : Quote) : QuoteMap :=
  if (List.any m fun p => p.1 = k) then
    List.map (fun p => if p.1 = k then (k, v) else p) m
  else
    List.append m [(k, v)]

/-- `Map.prototype.get`. -/
def mapGet (m : QuoteMap) (k : String) : Option Quote :=
  (List.find? (fun p => p.1 = k) m).map (fun p => p.2)

/-- The row padding of part_000 line 279:
`while (row.length < header.length) row.push("")`. -/
def padRow (row : List String) (width : Nat) : List String :=
  row ++ List.replicate (width - row.length) ""

/-- One iteration of the `dataRows.map` of part_000 lines 278-302: pad the
row, look its normalized ticker up in the quote map; on a hit derive the
price by the `regularMarketPrice ?? ask ?? bid ?? regularMarketPreviousClose`
chain, parse the shares cell, compute `value = price * shares` when both
are present, write the formatted price/value into their columns when those
roles are present, and record `value ?? 0` as the row's value.  The second
component is the `rowValues[rowIndex]` entry; `none` marks the array hole
left for a row with no matching quote. -/
def updateRow (quotes : QuoteMap) (headerLen : Nat) (tIdx sIdx : Nat)
    (pIdx vIdx : Option Nat) (row : List String) : List String × Option JSNum :=
  let row1 := padRow row headerLen
  let symbol := normalizeSymbol (row1.getD tIdx "")
  match mapGet quotes symbol with
  | none => (row1, none)
  | some quote =>
    let price : Option JSNum :=
      quote.regularMarketPrice <|> quote.ask <|> quote.bid <|>
        quote.regularMarketPreviousClose
    let shares : Option Frac := parseNumber (row1.getD sIdx "")
    let value : Option JSNum :=
      match price, shares with
      | some p, some sh => some (JSNum.mul p (JSNum.fin sh))
      | _, _ => none
    let row2 :=
      match pIdx, price with
      | some i2, some p => row1.set i2 (formatNumber p 2)
      | _, _ => row1
    let row3 :=
      match vIdx, value with
      | some i2, some v => row2.set i2 (formatNumber v 2)
      | _, _ => row2
    (row3, some (value.getD (JSNum.fin 0)))

/-- The updated rows paired with their `rowValues` entries. -/
def updatedPairs (quotes : QuoteMap) (headerLen : Nat) (tIdx sIdx : Nat)
    (pIdx vIdx : Option Nat) (dataRows : List (List String)) :
    List (List String × Option JSNum) :=
  dataRows.map (updateRow quotes headerLen tIdx sIdx pIdx vIdx)

/-- `rowValues.reduce((sum, v) => sum + v, 0)` (part_000 line 304);
JavaScript `reduce` skips the array holes of unmatched rows. -/
def totalOf (pairs : List (List String × Option JSNum)) : JSNum :=
  pairs.foldl
    (fun acc p => match p.2 with
      | some v => JSNum.add acc v
      | none => acc)
    (JSNum.fin 0)

/-- The reconciliation of part_000 lines 277-311: update every row, sum
the row values, and when the allocation role is present and the total is
strictly positive overwrite every row's allocation cell with
`formatNumber((value / totalValue) * 100, 2)`, where an unmatched row's
hole reads as `0` (`rowValues[rowIndex] ?? 0`). -/
def reconcileRows (quotes : QuoteMap) (headerLen : Nat) (tIdx sIdx : Nat)
    (pIdx vIdx aIdx : Option Nat) (dataRows : List (List String)) :
    List (List String) :=
  match aIdx with
  | some a =>
    if JSNum.gt (totalOf (updatedPairs quotes headerLen tIdx sIdx pIdx vIdx dataRows))
        (JSNum.fin 0) then
      (updatedPairs quotes headerLen tIdx sIdx pIdx vIdx dataRows).map fun p =>
        p.1.set a (formatNumber (JSNum.mul (JSNum.div (p.2.getD (JSNum.fin 0))
          (totalOf (updatedPairs quotes headerLen tIdx sIdx pIdx vIdx dataRows)))
          (JSNum.fin 100)) 2)
    else (updatedPairs quotes headerLen tIdx sIdx pIdx vIdx dataRows).map (fun p => p.1)
  | none => (updatedPairs quotes headerLen tIdx sIdx pIdx vIdx dataRows).map (fun p => p.1)

/-- Row serialization of part_000 lines 314 and 316:
`"| " + cells.join(" | ") + " |"`. -/
def serializeRow (cells : List String) : String :=
  "| " ++ String.intercalate " | " cells ++ " |"

/-- `parseStooqCsvLine` (part_000 lines 50-54): split on commas, trim
cells, blank out `N/A`. -/
def parseStooqCsvLine (line : String) : List String :=
  (splitOnChar ',' line.data).map fun p =>
    let t := jsTrim (String.mk p)
    if t = "N/A" then "" else t

/-- Split on `/\r?\n/`: a newline terminates a piece and consumes an
immediately preceding carriage return; a lone carriage return stays in
its piece.  `acc` holds the current piece reversed. -/
def splitCrLf : List Char → List Char → List (List Char)
  | [], acc => [acc.reverse]
  | '\n' :: rest, acc =>
    (match acc with
     | '\r' :: a => a.reverse
     | a => a.reverse) :: splitCrLf rest []
  | c :: rest, acc => splitCrLf rest (c :: acc)

/-- The `record` built by part_000 lines 75-78
(`record[key] = values[index] ?? ""`): the value at the last occurrence
of `key` in the header, `none` when the key is absent. -/
def recordLookup (header values : List String) (key : String) : Option String :=
  match ((List.range header.length).filter fun i => header.getD i "" = key).getLast? with
  | some i => some (values.getD i "")
  | none => none

/-- One candidate-spelling attempt of `fetchStooqQuote` (part_000 lines
63-108).  `sf` is the network oracle mapping a candidate symbol to the
response body (`none` when the request threw); `dp` models `Date.parse`,
returning `none` for NaN (per ECMA-262 the result is a finite time value
or NaN).  Returns `none` when this candidate is skipped by `continue`. -/
def stooqTryCandidate (sf : String → Option String) (dp : String → Option Int)
    (normalized candidate : String) : Option Quote :=
  match sf candidate with
  | none => none
  | some text =>
    let lines := (splitCrLf (jsTrim text).data []).map String.mk
    if lines.length < 2 then none
    else
      let header := parseStooqCsvLine (lines.getD 0 "")
      let values := parseStooqCsvLine (lines.getD 1 "")
      let rsym := (recordLookup header values "symbol").getD ""
      let rclose := (recordLookup header values "close").getD ""
      if rsym = "" || rclose = "" then none
      else
        let close := parseNumber rclose
        let low := parseNumber ((recordLookup header values "low").getD "")
        let high := parseNumber ((recordLookup header values "high").getD "")
        let volume := parseNumber ((recordLookup header values "volume").getD "")
        let datePart := (recordLookup header values "date").getD ""
        let timePart := (recordLookup header values "time").getD ""
        let updated : Option Int :=
          if datePart ≠ "" then
            dp (if timePart ≠ "" then datePart ++ "T" ++ timePart ++ "Z"
                else datePart ++ "T00:00:00Z")
          else none
        some { symbol := normalized,
               regularMarketPrice := close.map JSNum.fin,
               regularMarketDayLow := low.map JSNum.fin,
               regularMarketDayHigh := high.map JSNum.fin,
               regularMarketVolume := volume.map JSNum.fin,
               regularMarketTime := updated.map fun t => JSNum.fin ⟨Int.fdiv t 1000, 1⟩ }

/-- `fetchStooqQuote` (part_000 lines 56-111): try the lower-cased symbol,
then the lower-cased symbol with the `.us` market suffix, stopping at the
first candidate that parses. -/
def fetchStooqQuote (sf : String → Option String) (dp : String → Option Int)
    (symbol : String) : Option Quote :=
  let normalized := normalizeSymbol symbol
  stooqTryCandidate sf dp normalized (jsToLower normalized) <|>
    stooqTryCandidate sf dp normalized (jsToLower normalized ++ ".us")

/-- `fetchQuotesFromStooq` (part_000 lines 113-122): sequential per-symbol
fetch, inserting under the normalized symbol. -/
def fetchQuotesFromStooq (sf : String → Option String) (dp : String → Option Int)
    (symbols : List String) : QuoteMap :=
  symbols.foldl
    (fun m s => match fetchStooqQuote sf dp s with
      | some q => mapSet m (normalizeSymbol s) q
      | none => m)
    []

/-- Outcome of one Yahoo batch URL attempt: the request threw, the JSON
had no `quoteResponse.result`, or a result list came back. -/
inductive YahooOutcome where
  | threw : String → YahooOutcome
  | noResult : YahooOutcome
  | ok : List Quote → YahooOutcome
deriving DecidableEq, Repr

/-- The body of one iteration of the URL loop of part_000 lines 135-158:
a missing `quoteResponse.result` throws `"Unexpected response from Yahoo
Finance"` inside the `try`, and a successful response is keyed by
upper-cased symbol, skipping entries with a falsy symbol. -/
def yahooAttempt (o : YahooOutcome) : Except String QuoteMap :=
  match o with
  | .threw e => .error e
  | .noResult => .error "Unexpected response from Yahoo Finance"
  | .ok qs =>
    .ok (qs.foldl
      (fun m q => if q.symbol ≠ "" then mapSet m (jsToUpper q.symbol) q else m)
      [])

/-- The symbol cleaning of part_000 line 125:
`symbols.map(normalizeSymbol).filter(Boolean)`. -/
def cleanedOf (symbols : List String) : List String :=
  (symbols.map normalizeSymbol).filter (fun s => s ≠ "")

/-- `fetchQuotes` (part_000 lines 124-165): try the two Yahoo batch URLs
in order (`y0`, `y1` are the outcomes the network would produce for
them), then the per-symbol Stooq fallback; raise the last batch error
only when the Stooq map is empty (`lastError` is always an `Error` here,
so the final `"Failed to fetch quotes"` branch is unreachable once both
URLs have failed). -/
def fetchQuotes (y0 y1 : YahooOutcome) (sf : String → Option String)
    (dp : String → Option Int) (symbols : List String) : Except String QuoteMap :=
  let cleaned := cleanedOf symbols
  if cleaned.isEmpty then .ok []
  else
    match yahooAttempt y0 with
    | .ok m => .ok m
    | .error _ =>
      match yahooAttempt y1 with
      | .ok m => .ok m
      | .error e1 =>
        let sq := fetchQuotesFromStooq sf dp cleaned
        if 0 < sq.length then .ok sq else .error e1

/-- `fetchFinnhubQuote`'s response shape (main.ts lines 52-59), with each
field either absent (not a number) or a JavaScript number; only `c` is
type-checked by the adapter. -/
structure FinnhubResp where
  status : Nat
  c : Option JSNum := none
  h : Option JSNum := none
  l : Option JSNum := none
  o : Option JSNum := none
  pc : Option JSNum := none
  t : Option JSNum := none
deriving DecidableEq, Repr

/-- `fetchFinnhubQuote` (main.ts lines 69-93): reject non-200 statuses and
bodies whose `c` is not a number (`none` response body models `!data`),
then copy `c`, `l`, `h`, `pc`, `t` into the quote unvalidated. -/
def fetchFinnhubQuote (symbol : String) (resp : Option FinnhubResp) : Option Quote :=
  match resp with
  | none => none
  | some r =>
    if r.status ≠ 200 then none
    else
      match r.c with
      | none => none
      | some c =>
        some { symbol := normalizeSymbol symbol,
               regularMarketPrice := some c,
               regularMarketDayLow := r.l,
               regularMarketDayHigh := r.h,
               regularMarketPreviousClose := r.pc,
               regularMarketTime := r.t }

/-- The error outcomes of `updatePortfolioTable` (each surfaced as a
`Notice` and ending the command with the document untouched). -/
inductive UpdateError where
  | noTable : UpdateError
  | requiredColumnMissing : UpdateError
  | noSymbols : UpdateError
  | fetchFailed : String → UpdateError
deriving DecidableEq, Repr

/-- `updatePortfolioTable` (part_000 lines 172-344), minus the editor
plumbing: split the target text into lines, locate the table, resolve the
column roles (ticker and shares mandatory), extract symbols, fetch
quotes, reconcile the rows, and splice the re-serialized table (header
rebuilt, separator line verbatim) back over `[tableStart, tableEnd]`.
An `error` result means the command returned before `replaceSelection` /
`setValue`, leaving the document text unchanged. -/
def updatePortfolioTable (y0 y1 : YahooOutcome) (sf : String → Option String)
    (dp : String → Option Int) (targetText : String) : Except UpdateError String :=
  let lines := (splitOnChar '\n' targetText.data).map String.mk
  match locateTable lines with
  | none => .error .noTable
  | some (tableStart, tableEnd, header) =>
    let tickerIdx := headerIndex header tickerNames
    let sharesIdx := headerIndex header sharesNames
    let priceIdx := headerIndex header priceNames
    let valueIdx := headerIndex header valueNames
    let allocIdx := headerIndex header allocationNames
    match tickerIdx, sharesIdx with
    | some tIdx, some sIdx =>
      let dataRows :=
        ((lines.drop (tableStart + 2)).take (tableEnd + 1 - (tableStart + 2))).map splitRow
      let symbols :=
        ((dataRows.map fun row => row.getD tIdx "").filter (fun s => s ≠ "")).map
          normalizeSymbol
      if symbols.isEmpty then .error .noSymbols
      else
        match fetchQuotes y0 y1 sf dp symbols with
        | .error e => .error (.fetchFailed e)
        | .ok quotes =>
          let updatedRows :=
            reconcileRows quotes header.length tIdx sIdx priceIdx valueIdx allocIdx dataRows
          .ok (String.intercalate "\n"
            (lines.take tableStart ++
              [serializeRow header, lines.getD (tableStart + 1) ""] ++
              updatedRows.map serializeRow ++
              lines.drop (tableEnd + 1)))
    | _, _ => .error .requiredColumnMissing

/-- JavaScript truthiness of a nullable number (`null`, `0` and `NaN` are
falsy). -/
def truthyN (o : Option JSNum) : Bool :=
  match o with
  | some n => n.jsTruthy
  | none => false

/-- JavaScript truthiness of a nullable string (`null` and `""` are
falsy). -/
def truthyS (o : Option String) : Bool :=
  match o with
  | some s => decide (s ≠ "")
  | none => false

/-- The `else if` tail of the callout parenthetical (part_000 lines
403-407): previous close, then the derived price, else nothing.  `ns` is
the JavaScript number-to-string coercion used by `+`. -/
def subtitleNoBidAsk (previousClose price : Option JSNum) (ns : JSNum → String) : String :=
  if truthyN previousClose then
    "(Previous close: " ++ ns (previousClose.getD JSNum.nan) ++ ")"
  else if truthyN price then
    "(Price: " ++ ns (price.getD JSNum.nan) ++ ")"
  else ""

/-- The callout parenthetical subtitle (part_000 lines 394-407): bid/ask
with the spread percentage when both are truthy, else the
previous-close/price chain. -/
def subtitlePart (bid ask previousClose price : Option JSNum) (ns : JSNum → String) : String :=
  if truthyN bid && truthyN ask then
    let b := bid.getD JSNum.nan
    let a := ask.getD JSNum.nan
    "(Bid: " ++ ns b ++ ", Ask: " ++ ns a ++ ", Spread: " ++
      jsToFixed (JSNum.mul (JSNum.div (JSNum.sub a b) a) (JSNum.fin 100)) 3 ++ "%)"
  else subtitleNoBidAsk previousClose price ns

/-- String concatenation with a possibly-undefined value (JavaScript
renders `undefined` into the string). -/
def concatOpt (o : Option String) : String :=
  match o with
  | some s => s
  | none => "undefined"

/-- The field lines of the callout (part_000 lines 409-435), each omitted
when its guard is falsy.  `ns` is number-to-string coercion, `ls` is
`toLocaleString("en-US")`, and `ds` renders `new Date(t * 1000)` from the
raw `regularMarketTime` value. -/
def calloutBody (q : Quote) (ns ls ds : JSNum → String) : String :=
  let name := q.longName <|> q.shortName
  (if truthyS name then "\n> **Name:** " ++ name.getD "" else "") ++
  (if truthyS q.currency then "\n> **Currency:** " ++ q.currency.getD "" else "") ++
  (if truthyN q.regularMarketVolume then
    "\n> **Volume:** " ++ ls (q.regularMarketVolume.getD JSNum.nan) else "") ++
  (if truthyS q.currency && truthyN q.marketCap then
    "\n> **Market cap:** " ++ concatOpt (formatLongNumber (q.marketCap.getD JSNum.nan)) else "") ++
  (if truthyN q.regularMarketPreviousClose then
    "\n> **Previous close:** " ++ ns (q.regularMarketPreviousClose.getD JSNum.nan) else "") ++
  (if truthyN q.regularMarketDayLow && truthyN q.regularMarketDayHigh then
    "\n> **Day range:** " ++ ns (q.regularMarketDayLow.getD JSNum.nan) ++ " – " ++
      ns (q.regularMarketDayHigh.getD JSNum.nan) else "") ++
  (if truthyN q.fiftyTwoWeekLow && truthyN q.fiftyTwoWeekHigh then
    "\n> **52W range:** " ++ ns (q.fiftyTwoWeekLow.getD JSNum.nan) ++ " – " ++
      ns (q.fiftyTwoWeekHigh.getD JSNum.nan) else "") ++
  (if truthyN q.regularMarketTime then
    "\n>\n><small>*" ++ ds (q.regularMarketTime.getD JSNum.nan) ++ "*</small>" else "")

/-- The callout output of the insert-stock-info command (part_000 lines
372-435): header line with the normalized ticker and the parenthetical
subtitle, then the present-only field lines.  The `updated` guard
`quote.regularMarketTime ? new Date(...) : null` makes the timestamp line
follow the numeric truthiness of `regularMarketTime` (a `Date` object
itself is always truthy). -/
def renderCallout (ticker : String) (q : Quote) (ns ls ds : JSNum → String) : String :=
  "> [!info]- " ++ normalizeSymbol ticker ++ " " ++
    subtitlePart q.bid q.ask q.regularMarketPreviousClose
      (q.regularMarketPrice <|> q.ask <|> q.bid <|> q.regularMarketPreviousClose) ns ++
    calloutBody q ns ls ds

/-- A JavaScript primitive stored in the `stockData` object of the
get-single-stock-value command: a number or a string. -/
inductive JsPrim where
  | numV : JSNum → JsPrim
  | strV : String → JsPrim
deriving DecidableEq, Repr

/-- `String(value)` on a stockData primitive. -/
def jsPrimToString (ns : JSNum → String) : JsPrim → String
  | .numV n => ns n
  | .strV s => s

/-- The `stockData` object of part_000 lines 472-484: field key to
nullable primitive (an unknown key reads as `undefined`). -/
def stockDataLookup (q : Quote) (field : String) : Option JsPrim :=
  if field = "name" then (q.longName <|> q.shortName).map JsPrim.strV
  else if field = "currency" then q.currency.map JsPrim.strV
  else if field = "bid" then q.bid.map JsPrim.numV
  else if field = "ask" then q.ask.map JsPrim.numV
  else if field = "marketCap" then q.marketCap.map JsPrim.numV
  else if field = "previousClose" then q.regularMarketPreviousClose.map JsPrim.numV
  else if field = "volume" then q.regularMarketVolume.map JsPrim.numV
  else if field = "fiftytwo_high" then q.fiftyTwoWeekHigh.map JsPrim.numV
  else if field = "fiftytwo_low" then q.fiftyTwoWeekLow.map JsPrim.numV
  else if field = "dayRange_high" then q.regularMarketDayHigh.map JsPrim.numV
  else if field = "dayRange_low" then q.regularMarketDayLow.map JsPrim.numV
  else none

/-- The single-value extraction of part_000 lines 486-499: a present
(non-null, non-undefined) field renders as a string — `marketCap` through
`formatLongNumber` (falling back to `String(value)` when that returns
`undefined`), `volume` through `toLocaleString`, everything else through
`String(value)`; an absent field yields `none` (the "No data available"
notice). -/
def getSingleStockValue (q : Quote) (field : String) (ns ls : JSNum → String) :
    Option String :=
  match stockDataLookup q field with
  | none => none
  | some v =>
    if field = "marketCap" then
      match v with
      | .numV n => some ((formatLongNumber n).getD (jsPrimToString ns v))
      | _ => some (jsPrimToString ns v)
    else if field = "volume" then
      match v with
      | .numV n => some (ls n)
      | _ => some (jsPrimToString ns v)
    else some (jsPrimToString ns v)

/-- The numeric fields of a quote, in declaration order. -/
def numFieldsOf (q : Quote) : List (Option JSNum) :=
  [q.bid, q.ask, q.regularMarketPrice, q.regularMarketPreviousClose,
   q.regularMarketDayLow, q.regularMarketDayHigh, q.fiftyTwoWeekLow,
   q.fiftyTwoWeekHigh, q.marketCap, q.regularMarketVolume, q.regularMarketTime]

/-- A nullable numeric field is finite or absent. -/
def optNumFinite (o : Option JSNum) : Bool :=
  match o with
  | some n => n.isFiniteB
  | none => true

/-- The data-model invariant of the spec: every populated numeric field of
the quote is a finite number. -/
def quoteNumFieldsFinite (q : Quote) : Bool :=
  (numFieldsOf q).all optNumFinite

/-- Strip trailing JavaScript whitespace from a string (for comparing
texts up to trailing-whitespace normalization). -/
def stripTrailingJsWS (s : String) : String :=
  String.mk ((s.data.reverse.dropWhile isJsSpace).reverse)

/-- Two texts are equal outside trailing-whitespace normalization: their
line sequences agree after stripping trailing whitespace from every
line. -/
def eqUpToTrailingWS (a b : String) : Bool :=
  decide (((splitOnChar '\n' a.data).map fun p => stripTrailingJsWS (String.mk p)) =
    ((splitOnChar '\n' b.data).map fun p => stripTrailingJsWS (String.mk p)))

/-- Re-serialize the first located table with no cell changed: the
serializer of part_000 lines 313-323 applied to the parsed header and
data rows as-is (separator line kept verbatim, surrounding lines
spliced back). -/
def reserializeLocated (lines : List String) : Option String :=
  (locateTable lines).map fun loc =>
    let dataRows :=
      ((lines.drop (loc.1 + 2)).take (loc.2.1 + 1 - (loc.1 + 2))).map splitRow
    String.intercalate "\n"
      (lines.take loc.1 ++
        [serializeRow loc.2.2, lines.getD (loc.1 + 1) ""] ++
        dataRows.map serializeRow ++
        lines.drop (loc.2.1 + 1))

/-- Dash cells joined by pipes: the inner body of a candidate separator
line. -/
def sepBody : List Nat → List Char
  | [] => []
  | [n] => List.replicate n '-'
  | n :: rest => List.replicate n '-' ++ '|' :: sepBody rest

/-- A candidate separator line built from per-cell dash counts:
`|` + dashes + `|` + dashes + ... + `|`. -/
def mkSepLine (counts : List Nat) : String :=
  String.mk ('|' :: (sepBody counts ++ ['|']))

/-- The quote map `{AAPL: price = 150}` of the spec's worked example. -/
def exampleQuotesC1 : QuoteMap :=
  [("AAPL", { symbol := "AAPL", regularMarketPrice := some (JSNum.fin 150) })]

/-- A two-symbol quote map giving row values 1500 and 500 for ten shares
each. -/
def exampleQuotesC3 : QuoteMap :=
  [("AAPL", { symbol := "AAPL", regularMarketPrice := some (JSNum.fin 150) }),
   ("MSFT", { symbol := "MSFT", regularMarketPrice := some (JSNum.fin 50) })]

/-- The two data rows of the allocation example (header
`["Ticker","Shares","Value","Allocation"]`). -/
def exampleRowsC3 : List (List String) :=
  [["AAPL", "10", "", ""], ["MSFT", "10", "", ""]]

/-- Every numeric field of a Finnhub response body is finite or
absent. -/
def finnhubRespFinite (r : FinnhubResp) : Bool :=
  [r.c, r.h, r.l, r.o, r.pc, r.t].all optNumFinite

/-! ### Theorems about the claims -/

/-! #### Certification of the fraction arithmetic against `ℚ` -/

/-- A zero numerator means the value is zero. -/
theorem Frac.isZero_iff (f : Frac) (hd : f.den ≠ 0) :
    f.isZero = true ↔ f.toRat = 0 := by
  simp only [Frac.isZero, Frac.toRat, decide_eq_true_eq, div_eq_zero_iff]
  constructor
  · intro h; left; exact_mod_cast h
  · rintro (h | h)
    · exact_mod_cast h
    · exact absurd (Nat.cast_eq_zero.mp h) hd

/-- `Frac.add` computes rational addition. -/
theorem Frac.toRat_add (a b : Frac) (ha : a.den ≠ 0) (hb : b.den ≠ 0) :
    (a.add b).toRat = a.toRat + b.toRat := by
  have ha' : ((a.den : ℚ)) ≠ 0 := Nat.cast_ne_zero.mpr ha
  have hb' : ((b.den : ℚ)) ≠ 0 := Nat.cast_ne_zero.mpr hb
  simp only [Frac.add, Frac.toRat]
  push_cast
  field_simp

/-- `Frac.mul` computes rational multiplication. -/
theorem Frac.toRat_mul (a b : Frac) : (a.mul b).toRat = a.toRat * b.toRat := by
  simp only [Frac.mul, Frac.toRat]
  push_cast
  ring

/-- `Frac.neg` computes rational negation. -/
theorem Frac.toRat_neg (a : Frac) : a.neg.toRat = -a.toRat := by
  simp [Frac.neg, Frac.toRat, neg_div]

/-- `Frac.abs` computes the rational absolute value. -/
theorem Frac.toRat_abs (a : Frac) : a.abs.toRat = |a.toRat| := by
  simp only [Frac.abs, Frac.toRat]
  rw [abs_div]
  congr 1
  · push_cast; rfl
  · rw [abs_of_nonneg (by positivity)]

/-- `Frac.div` computes rational division when the divisor's value is
nonzero. -/
theorem Frac.toRat_div (a b : Frac) (hb : b.num ≠ 0) :
    (a.div b).toRat = a.toRat / b.toRat := by
  simp only [Frac.div, Frac.toRat]
  rcases Int.lt_or_lt_of_ne hb with h | h
  · rw [Int.sign_eq_neg_one_of_neg h]
    have hn : ((b.num.natAbs : ℕ) : ℚ) = -(b.num : ℚ) := by
      rw [Int.cast_natAbs]
      exact_mod_cast abs_of_neg h
    push_cast
    rw [hn]
    rcases eq_or_ne (a.den : ℚ) 0 with ha | ha
    · simp [ha]
    rcases eq_or_ne (b.den : ℚ) 0 with hbd | hbd
    · simp [hbd]
    have hbq : (b.num : ℚ) ≠ 0 := by exact_mod_cast hb
    field_simp
  · rw [Int.sign_eq_one_of_pos h]
    have hn : ((b.num.natAbs : ℕ) : ℚ) = (b.num : ℚ) := by
      rw [Int.cast_natAbs]
      exact_mod_cast abs_of_pos h
    push_cast
    rw [hn]
    rcases eq_or_ne (a.den : ℚ) 0 with ha | ha
    · simp [ha]
    rcases eq_or_ne (b.den : ℚ) 0 with hbd | hbd
    · simp [hbd]
    have hbq : (b.num : ℚ) ≠ 0 := by exact_mod_cast hb
    field_simp

/-- `Frac.lt` decides the rational strict order (for positive
denominators). -/
theorem Frac.lt_iff (a b : Frac) (ha : 0 < a.den) (hb : 0 < b.den) :
    a.lt b = true ↔ a.toRat < b.toRat := by
  have ha' : (0 : ℚ) < (a.den : ℚ) := by exact_mod_cast ha
  have hb' : (0 : ℚ) < (b.den : ℚ) := by exact_mod_cast hb
  simp only [Frac.lt, Frac.toRat, decide_eq_true_eq]
  rw [div_lt_div_iff₀ ha' hb']
  constructor
  · intro h; exact_mod_cast h
  · intro h; exact_mod_cast h

/-- `Frac.floor` computes the rational floor (for positive
denominators). -/
theorem Frac.floor_eq (a : Frac) : a.floor = ⌊a.toRat⌋ := by
  rw [Frac.floor, Frac.toRat, Rat.floor_intCast_div_natCast,
    Int.fdiv_eq_ediv _ (by positivity)]

/-! #### Engine helper lemmas -/

/-- Reading a mapped list at a valid index. -/
theorem getD_map_of_lt {α β : Type} (f : α → β) (l : List α) (i : Nat) (d : β)
    (dflt : α) (hi : i < l.length) : (l.map f).getD i d = f (l.getD i dflt) := by
  rw [List.getD_eq_getElem?_getD, List.getD_eq_getElem?_getD, List.getElem?_map,
    List.getElem?_eq_getElem hi]
  rfl

/-- Padding never changes what a cell read yields (the appended cells are
empty strings, which is also what an out-of-range read defaults to). -/
theorem padRow_getD (row : List String) (w i : Nat) :
    (padRow row w).getD i "" = row.getD i "" := by
  rw [padRow, List.getD_eq_getElem?_getD, List.getD_eq_getElem?_getD,
    List.getElem?_append]
  by_cases hi : i < row.length
  · simp [hi]
  · rw [if_neg hi, List.getElem?_replicate]
    rw [List.getElem?_eq_none (by omega)]
    by_cases hk : i - row.length < w - row.length <;> simp [hk]

/-- A padded row is at least as long as the header. -/
theorem padRow_length (row : List String) (w : Nat) : w ≤ (padRow row w).length := by
  simp [padRow]
  omega

/-- The updated row is at least as long as the header. -/
theorem updateRow_fst_length (quotes : QuoteMap) (hl tIdx sIdx : Nat)
    (pIdx vIdx : Option Nat) (row : List String) :
    hl ≤ (updateRow quotes hl tIdx sIdx pIdx vIdx row).1.length := by
  rw [updateRow]
  have hp := padRow_length row hl
  cases hq : mapGet quotes (normalizeSymbol ((padRow row hl).getD tIdx "")) with
  | none => simpa using hp
  | some quote =>
    simp only
    split <;> try split
    all_goals simp_all [List.length_set]

/-- A row whose normalized ticker has no quote is only padded by
`updateRow`, and leaves a hole in `rowValues`. -/
theorem updateRow_of_no_quote (quotes : QuoteMap) (hl tIdx sIdx : Nat)
    (pIdx vIdx : Option Nat) (row : List String)
    (hnq : mapGet quotes (normalizeSymbol (row.getD tIdx "")) = none) :
    updateRow quotes hl tIdx sIdx pIdx vIdx row = (padRow row hl, none) := by
  rw [updateRow, padRow_getD, hnq]

/-- A fraction with zero numerator formats as `"0.00"` at two digits,
whatever its (positive) denominator. -/
theorem formatFin_zero_num (D : Nat) (hD : 1 ≤ D) :
    formatFin ⟨0, D⟩ 2 = "0.00" := by
  have habs : Frac.abs ⟨0, D⟩ = ⟨0, D⟩ := by simp [Frac.abs]
  have hn : roundHalfScaled ⟨0, D⟩ (10 ^ 2) = 0 := by
    rw [roundHalfScaled, habs]
    have hmul : Frac.mul ⟨0, D⟩ ⟨((10 ^ 2 : ℕ) : Int), 1⟩ = ⟨0, D⟩ := by
      simp [Frac.mul]
    rw [hmul]
    have hadd : Frac.add ⟨0, D⟩ ⟨1, 2⟩ = ⟨(D : Int), D * 2⟩ := by
      simp [Frac.add]
    rw [hadd]
    show (Int.fdiv (D : Int) ((D * 2 : ℕ) : Int)).toNat = 0
    rw [Int.fdiv_eq_ediv _ (by positivity),
      Int.ediv_eq_zero_of_lt (by positivity) (by exact_mod_cast (by omega : D < D * 2))]
    rfl
  rw [formatFin]
  simp only [hn]
  rfl

/-- Under a strictly positive total, the allocation written for a zero
row value is `formatNumber(0 / total * 100, 2) = "0.00"`. -/
theorem format_zero_allocation (total : JSNum)
    (hpos : JSNum.gt total (JSNum.fin 0) = true) :
    formatNumber (JSNum.mul (JSNum.div (JSNum.fin 0) total) (JSNum.fin 100)) 2 = "0.00" := by
  cases total with
  | nan => simp [JSNum.gt] at hpos
  | ninf => simp [JSNum.gt] at hpos
  | inf => rfl
  | fin t =>
    have ht : 0 < t.num := by
      simpa [JSNum.gt, Frac.lt, show (0 : Frac).num = 0 from rfl,
        show (0 : Frac).den = 1 from rfl] using hpos
    have htz : t.isZero = false := by
      simp [Frac.isZero]
      omega
    have hD : 1 ≤ t.num.natAbs := by
      have := Int.natAbs_pos.mpr (by omega : t.num ≠ 0)
      omega
    have hdiv : JSNum.div (JSNum.fin 0) (JSNum.fin t) = JSNum.fin ⟨0, t.num.natAbs⟩ := by
      rw [JSNum.div, if_neg (by simp [htz])]
      congr 1
      show Frac.div ⟨0, 1⟩ t = ⟨0, t.num.natAbs⟩
      simp [Frac.div]
    have hmul : JSNum.mul (JSNum.fin ⟨0, t.num.natAbs⟩) (JSNum.fin 100) =
        JSNum.fin ⟨0, t.num.natAbs⟩ := by
      rw [JSNum.mul]
      congr 1
      show Frac.mul ⟨0, t.num.natAbs⟩ ⟨100, 1⟩ = ⟨0, t.num.natAbs⟩
      simp [Frac.mul]
    rw [hdiv, hmul, formatNumber, formatFin_zero_num t.num.natAbs hD]

/-- C1 counterexample: for header
`["Ticker","Shares","Current Price","Value","Allocation"]`, row
`["AAPL","10","","",""]` and quote `{AAPL: price = 150}`, the engine does
NOT produce `["AAPL","10","150.00","1500.00",""]`: the value is grouped
as `1,500.00` by the en-US formatter, and the allocation cell is filled
(the single row's total 1500 is positive). -/
theorem c1_claim_false :
    reconcileRows exampleQuotesC1 5 0 1 (some 2) (some 3) (some 4)
      [["AAPL", "10", "", "", ""]] ≠
      [["AAPL", "10", "150.00", "1500.00", ""]] := by
  decide

/-- C1 (amended): with header
`["Ticker","Shares","Current Price","Value","Allocation"]`, row
`["AAPL","10","","",""]` and quote `{AAPL: price = 150}`, the
reconciliation engine produces `["AAPL","10","150.00","1,500.00","100.00"]`:
price and value are filled with the en-US fixed-2 format (value grouped
with a thousands separator), and since the total 1500 is positive and the
allocation role is present the allocation cell is filled with `100.00`. -/
theorem c1_row_update :
    reconcileRows exampleQuotesC1 5 0 1 (some 2) (some 3) (some 4)
      [["AAPL", "10", "", "", ""]] =
      [["AAPL", "10", "150.00", "1,500.00", "100.00"]] := by
  decide

/-! #### Locator lemmas -/

/-- Reading a dropped list. -/
theorem getD_drop (L : List String) (m j : Nat) :
    (L.drop m).getD j "" = L.getD (m + j) "" := by
  rw [List.getD_eq_getElem?_getD, List.getD_eq_getElem?_getD, List.getElem?_drop]

/-- What `findTableStart` finds: a table row followed by a separator, at
the first index where that happens, with the successor in range. -/
theorem findTableStart_spec (lines : List String) (s : Nat)
    (h : findTableStart lines = some s) :
    s + 1 < lines.length ∧
    isTableRow (lines.getD s "") = true ∧
    isTableSeparator (lines.getD (s + 1) "") = true ∧
    ∀ i, i < s → ¬(isTableRow (lines.getD i "") = true ∧
      isTableSeparator (lines.getD (i + 1) "") = true) := by
  induction lines generalizing s with
  | nil => simp [findTableStart] at h
  | cons a tail ih =>
    cases tail with
    | nil => simp [findTableStart] at h
    | cons b rest =>
      rw [findTableStart] at h
      by_cases hc : isTableRow a && isTableSeparator b
      · rw [if_pos hc, Option.some.injEq] at h
        subst h
        refine ⟨by simp [Nat.succ_lt_succ], ?_, ?_, by omega⟩
        · simpa using (Bool.and_eq_true_iff.mp hc).1
        · simpa using (Bool.and_eq_true_iff.mp hc).2
      · rw [if_neg hc] at h
        rcases Option.map_eq_some'.mp h with ⟨s', hs', hss⟩
        subst hss
        obtain ⟨h1, h2, h3, h4⟩ := ih s' hs'
        refine ⟨by simpa [Nat.succ_lt_succ] using h1, by simpa using h2,
          by simpa using h3, ?_⟩
        intro i hi
        cases i with
        | zero =>
          simp only [List.getD_cons_zero, List.getD_cons_succ]
          intro hcontra
          exact hc (by simp [hcontra.1, hcontra.2])
        | succ j =>
          simp only [List.getD_cons_succ]
          exact h4 j (by omega)

/-- The row count never exceeds the number of remaining lines. -/
theorem countTableRows_le (M : List String) : countTableRows M ≤ M.length := by
  induction M with
  | nil => simp [countTableRows]
  | cons l ls ih =>
    rw [countTableRows]
    by_cases hl : isTableRow l <;> simp [hl] <;> omega

/-- Every line before the count is a table row. -/
theorem countTableRows_rows (M : List String) (k : Nat)
    (hk : k < countTableRows M) : isTableRow (M.getD k "") = true := by
  induction M generalizing k with
  | nil => simp [countTableRows] at hk
  | cons l ls ih =>
    rw [countTableRows] at hk
    by_cases hl : isTableRow l
    · rw [if_pos hl] at hk
      cases k with
      | zero => simpa using hl
      | succ j => simpa using ih j (by omega)
    · rw [if_neg hl] at hk
      omega

/-- The line right after the counted run is not a table row (when it
exists). -/
theorem countTableRows_stop (M : List String)
    (h : countTableRows M < M.length) :
    isTableRow (M.getD (countTableRows M) "") = false := by
  induction M with
  | nil => simp [countTableRows] at h
  | cons l ls ih =>
    by_cases hl : isTableRow l
    · rw [countTableRows, if_pos hl] at h ⊢
      simpa using ih (by simpa using h)
    · rw [countTableRows, if_neg hl] at h ⊢
      simpa using hl

/-- Mapping a function that fixes every element is the identity. -/
theorem map_eq_self_of_forall {α : Type} (l : List α) (f : α → α)
    (h : ∀ x ∈ l, f x = x) : l.map f = l := by
  induction l with
  | nil => rfl
  | cons a tl ih =>
    rw [List.map_cons, h a (by simp), ih (fun x hx => h x (by simp [hx]))]

/-- C4 (amended): the locator returns the exact span of the first
contiguous table block — `lines[s]` is a table row followed by the
separator line `lines[s+1]`, no earlier line starts a table, every line
of `[s+2, e]` is a table row and line `e+1` (when it exists) is not —
and re-serializing the located table with no cell changed reproduces the
original text byte-for-byte PROVIDED every table line is already in the
canonical serialized form `| c₁ | c₂ | ... |` (single spaces, trimmed
cells); for non-canonical table lines the serializer also normalizes
cell spacing and outer pipes, which is more than trailing-whitespace
normalization. -/
theorem c4_locator_roundtrip (lines : List String) (s e : Nat)
    (header : List String)
    (hloc : locateTable lines = some (s, e, header)) :
    header = splitRow (lines.getD s "") ∧
    s + 1 ≤ e ∧ e < lines.length ∧
    isTableRow (lines.getD s "") = true ∧
    isTableSeparator (lines.getD (s + 1) "") = true ∧
    (∀ i, i < s → ¬(isTableRow (lines.getD i "") = true ∧
      isTableSeparator (lines.getD (i + 1) "") = true)) ∧
    (∀ k, s + 2 ≤ k → k ≤ e → isTableRow (lines.getD k "") = true) ∧
    (e + 1 < lines.length → isTableRow (lines.getD (e + 1) "") = false) ∧
    (serializeRow (splitRow (lines.getD s "")) = lines.getD s "" →
      (∀ k, s + 2 ≤ k → k ≤ e →
        serializeRow (splitRow (lines.getD k "")) = lines.getD k "") →
      reserializeLocated lines = some (String.intercalate "\n" lines)) := by
  rw [locateTable] at hloc
  cases hfs : findTableStart lines with
  | none => rw [hfs] at hloc; simp at hloc
  | some i =>
    rw [hfs, Option.map_some'] at hloc
    injection hloc with hloc
    obtain ⟨hi, he, hh⟩ : i = s ∧ i + 1 + countTableRows (lines.drop (i + 2)) = e ∧
        splitRow (lines.getD i "") = header := by
      refine ⟨congrArg Prod.fst hloc, ?_, ?_⟩
      · exact congrArg (fun p => p.2.1) hloc
      · exact congrArg (fun p => p.2.2) hloc
    rw [hi] at hfs he hh
    clear hloc
    obtain ⟨hlen, hrow, hsep, hmin⟩ := findTableStart_spec lines s hfs
    have hdlen : (lines.drop (s + 2)).length = lines.length - (s + 2) :=
      List.length_drop _ _
    have hcle := countTableRows_le (lines.drop (s + 2))
    have he' : e = s + 1 + countTableRows (lines.drop (s + 2)) := he.symm
    have helt : e < lines.length := by omega
    refine ⟨hh.symm, by omega, helt, hrow, hsep, hmin, ?_, ?_, ?_⟩
    · intro k h1 h2
      have : k - (s + 2) < countTableRows (lines.drop (s + 2)) := by omega
      have := countTableRows_rows _ _ this
      rwa [getD_drop, show s + 2 + (k - (s + 2)) = k by omega] at this
    · intro hlt
      have hnlt : countTableRows (lines.drop (s + 2)) < (lines.drop (s + 2)).length := by
        omega
      have := countTableRows_stop _ hnlt
      rwa [getD_drop, show s + 2 + countTableRows (lines.drop (s + 2)) = e + 1 by omega]
        at this
    · intro hhead hcells
      set n := countTableRows (lines.drop (s + 2)) with hn
      have hsplit : lines = lines.take s ++
          [lines.getD s "", lines.getD (s + 1) ""] ++
          (lines.drop (s + 2)).take n ++ lines.drop (e + 1) := by
        have d1 : lines.drop s = lines.getD s "" :: lines.drop (s + 1) := by
          rw [List.getD_eq_getElem _ _ (by omega : s < lines.length),
            List.drop_eq_getElem_cons (by omega : s < lines.length)]
        have d2 : lines.drop (s + 1) = lines.getD (s + 1) "" :: lines.drop (s + 2) := by
          rw [List.getD_eq_getElem _ _ hlen, List.drop_eq_getElem_cons hlen]
        have d3 : (lines.drop (s + 2)).take n ++ (lines.drop (s + 2)).drop n =
            lines.drop (s + 2) := List.take_append_drop _ _
        have d4 : (lines.drop (s + 2)).drop n = lines.drop (e + 1) := by
          rw [List.drop_drop, show s + 2 + n = e + 1 by omega]
        have d5 : lines.drop (s + 2) =
            (lines.drop (s + 2)).take n ++ lines.drop (e + 1) := by
          conv_lhs => rw [← d3]
          rw [d4]
        conv_lhs => rw [← List.take_append_drop s lines, d1, d2, d5]
        simp
      have hslice : ((lines.drop (s + 2)).take n).map
          (fun line => serializeRow (splitRow line)) =
          (lines.drop (s + 2)).take n := by
        apply map_eq_self_of_forall
        intro x hx
        rcases List.mem_iff_getElem.mp hx with ⟨j, hj, hxj⟩
        have hjn : j < n := by
          have h' := hj
          simp only [List.length_take] at h'
          omega
        have hb : s + 2 + j < lines.length := by
          rw [hdlen] at hcle
          omega
        have hx' : x = lines.getD (s + 2 + j) "" := by
          rw [List.getD_eq_getElem _ _ hb, ← hxj, List.getElem_take, List.getElem_drop]
        rw [hx']
        exact hcells (s + 2 + j) (by omega) (by omega)
      rw [reserializeLocated, locateTable, hfs, Option.map_some', Option.map_some']
      simp only
      congr 1
      rw [show s + 1 + n + 1 - (s + 2) = n by omega,
        show s + 1 + n + 1 = e + 1 by omega, List.map_map,
        show serializeRow ∘ splitRow = (fun line => serializeRow (splitRow line)) from rfl,
        hslice, hhead]
      conv_rhs => rw [hsplit]

/-- C4 counterexample: for the well-formed table
`A|B` / `|---|---|` / `|1|2|`, re-serializing the located table with no
cell changed yields `| A | B |` / `|---|---|` / `| 1 | 2 |`, which
differs from the original beyond trailing-whitespace normalization (cell
spacing and outer pipes are normalized too). -/
theorem c4_claim_false :
    reserializeLocated ["A|B", "|---|---|", "|1|2|"] =
      some "| A | B |\n|---|---|\n| 1 | 2 |" ∧
    eqUpToTrailingWS (String.intercalate "\n" ["A|B", "|---|---|", "|1|2|"])
      "| A | B |\n|---|---|\n| 1 | 2 |" = false := by
  decide

/-- C4 witness: a concrete canonical table round-trips byte-for-byte. -/
theorem c4_locator_roundtrip_witness :
    reserializeLocated
        ["pre", "| Ticker | Shares |", "|---|---|", "| AAPL | 10 |", "post"] =
      some (String.intercalate "\n"
        ["pre", "| Ticker | Shares |", "|---|---|", "| AAPL | 10 |", "post"]) := by
  have h := c4_locator_roundtrip
    ["pre", "| Ticker | Shares |", "|---|---|", "| AAPL | 10 |", "post"]
    1 3 ["Ticker", "Shares"] (by decide)
  refine h.2.2.2.2.2.2.2.2 (by decide) ?_
  intro k h1 h2
  have hk : k = 3 := by omega
  subst hk
  decide

/-- C5 counterexample: a line of cells of exactly two dashes is NOT
recognized as a table separator — the regexp requires three or more
dashes per cell (`-{3,}`), not two or more. -/
theorem c5_two_dashes_rejected : isTableSeparator "|--|--|" = false := by
  decide

/-! #### Separator pattern lemmas -/

/-- The splitter never returns an empty piece list. -/
theorem splitOnChar_ne_nil (sep : Char) (cs : List Char) :
    splitOnChar sep cs ≠ [] := by
  cases cs with
  | nil => simp [splitOnChar]
  | cons c cs' =>
    rw [splitOnChar]
    by_cases hc : c = sep
    · simp [hc]
    · rw [if_neg hc]
      cases h : splitOnChar sep cs' <;> simp

/-- Splitting a separator-free prefix followed by a separator. -/
theorem splitOnChar_append_sep (sep : Char) (xs ys : List Char)
    (hxs : ∀ c ∈ xs, c ≠ sep) :
    splitOnChar sep (xs ++ sep :: ys) = xs :: splitOnChar sep ys := by
  induction xs with
  | nil => simp [splitOnChar]
  | cons c xs' ih =>
    have hc : c ≠ sep := hxs c (by simp)
    rw [List.cons_append, splitOnChar, if_neg hc,
      ih (fun d hd => hxs d (by simp [hd]))]

/-- Dash runs contain no pipe. -/
theorem no_bar_in_dashes (n : Nat) : ∀ c ∈ List.replicate n '-', c ≠ '|' := by
  intro c hc
  rw [List.eq_of_mem_replicate hc]
  decide

/-- The body of a dash-cell separator line splits into its cells plus
the empty piece of the trailing pipe. -/
theorem splitOnChar_sepBody (counts : List Nat) (hne : counts ≠ []) :
    splitOnChar '|' (sepBody counts ++ ['|']) =
      (counts.map fun n => List.replicate n '-') ++ [[]] := by
  induction counts with
  | nil => exact absurd rfl hne
  | cons n rest ih =>
    cases rest with
    | nil =>
      have hsb : sepBody [n] = List.replicate n '-' := by rw [sepBody]
      rw [hsb, splitOnChar_append_sep '|' _ [] (no_bar_in_dashes n)]
      simp [splitOnChar]
    | cons m rest' =>
      have hsb : sepBody (n :: m :: rest') =
          List.replicate n '-' ++ '|' :: sepBody (m :: rest') := by
        rw [sepBody]
        exact List.cons_ne_nil m rest'
      rw [hsb, List.append_assoc, List.cons_append,
        splitOnChar_append_sep '|' _ _ (no_bar_in_dashes n), ih (List.cons_ne_nil m rest')]
      simp

/-- `all` over a mapped list. -/
theorem all_map_general {α β : Type} (f : α → β) (l : List α) (p : β → Bool) :
    (l.map f).all p = l.all (fun a => p (f a)) := by
  induction l with
  | nil => rfl
  | cons a tl ih => simp [ih]

/-- A cell of `n` dashes matches the separator-cell pattern exactly
when `n` is at least three. -/
theorem isSepChunkPiece_replicate (n : Nat) :
    isSepChunkPiece (List.replicate n '-') = decide (3 ≤ n) := by
  rw [isSepChunkPiece]
  have hws : dropJsWS (List.replicate n '-') = List.replicate n '-' := by
    rw [dropJsWS, List.dropWhile_replicate]
    simp [isJsSpace]
  rw [hws]
  cases n with
  | zero => rfl
  | succ m =>
    rw [List.replicate_succ]
    have h1 : dropColon ('-' :: List.replicate m '-') = '-' :: List.replicate m '-' := by
      rw [dropColon, if_neg (by decide)]
    rw [h1]
    simp only [List.takeWhile_cons, List.dropWhile_cons]
    rw [List.takeWhile_replicate, List.dropWhile_replicate]
    simp [dropJsWS, dropColon]

/-- C5 (amended): the separator pattern requires cells of THREE or more
dashes, not two or more — for every list of per-cell dash counts with at
least two cells, the line of dash cells joined and bracketed by pipes is
recognized as a table separator exactly when every cell has at least
three dashes.  (The table-begins-at-the-first-matching-line clause of
the claim is the locator property established for C4.) -/
theorem c5_separator_pattern (counts : List Nat) (h2 : 2 ≤ counts.length) :
    isTableSeparator (mkSepLine counts) = counts.all (fun n => decide (3 ≤ n)) := by
  have hne : counts ≠ [] := by
    cases counts
    · simp at h2
    · simp
  rw [isTableSeparator]
  have hdata : (mkSepLine counts).data = '|' :: (sepBody counts ++ ['|']) := rfl
  rw [hdata]
  rw [show splitOnChar '|' ('|' :: (sepBody counts ++ ['|'])) =
      [] :: splitOnChar '|' (sepBody counts ++ ['|']) from by
    rw [splitOnChar]
    simp]
  rw [splitOnChar_sepBody counts hne]
  rw [if_neg (by simp)]
  simp only [List.headD_cons, List.tail_cons]
  rw [if_pos (show dropJsWS ([] : List Char) = [] from rfl)]
  rw [List.getLastD_concat]
  rw [if_pos (show dropJsWS ([] : List Char) = [] from rfl)]
  rw [List.dropLast_concat]
  have h2' : 2 ≤ ((counts.map fun n => List.replicate n '-')).length := by
    simpa using h2
  rw [decide_eq_true h2', Bool.true_and]
  have hfun : (fun n => isSepChunkPiece (List.replicate n '-')) =
      fun n => decide (3 ≤ n) := by
    funext n
    exact isSepChunkPiece_replicate n
  rw [all_map_general, hfun]

/-- C5 witness: the three-dash line is recognized as a separator. -/
theorem c5_separator_pattern_witness :
    mkSepLine [3, 3] = "|---|---|" ∧ isTableSeparator "|---|---|" = true := by
  refine ⟨by decide, ?_⟩
  have h := c5_separator_pattern [3, 3] (by decide)
  rw [show mkSepLine [3, 3] = "|---|---|" from by decide] at h
  rw [h]
  decide

/-- C2 counterexample: a row with no matching quote is NOT always left
unmodified-except-padding — when the allocation role is present and the
table total is positive, its allocation cell is overwritten.  Here row
`["ZZZZ","5","","keep"]` has no quote, but its allocation cell `"keep"`
becomes `"0.00"`. -/
theorem c2_claim_false :
    (reconcileRows exampleQuotesC1 4 0 1 none (some 2) (some 3)
        [["AAPL", "10", "", ""], ["ZZZZ", "5", "", "keep"]]).getD 1 [] =
      ["ZZZZ", "5", "", "0.00"] ∧
    ["ZZZZ", "5", "", "0.00"] ≠ padRow ["ZZZZ", "5", "", "keep"] 4 := by
  decide

/-- C2 (amended): a data row whose normalized ticker has no matching
quote keeps all its cells except that it is padded to the header's
length and, when the allocation role is present and the summed total is
strictly positive, its allocation cell is overwritten with
`formatFixed(0) = "0.00"`; its price and value cells keep their original
contents regardless of which optional column roles are present and of
the other rows' values. -/
theorem c2_unmatched_row (quotes : QuoteMap) (headerLen tIdx sIdx : Nat)
    (pIdx vIdx aIdx : Option Nat) (dataRows : List (List String)) (i : Nat)
    (hi : i < dataRows.length)
    (hnq : mapGet quotes (normalizeSymbol ((dataRows.getD i []).getD tIdx "")) = none) :
    (reconcileRows quotes headerLen tIdx sIdx pIdx vIdx aIdx dataRows).getD i [] =
      match aIdx with
      | some a =>
        if JSNum.gt (totalOf (updatedPairs quotes headerLen tIdx sIdx pIdx vIdx dataRows))
            (JSNum.fin 0) then
          (padRow (dataRows.getD i []) headerLen).set a "0.00"
        else padRow (dataRows.getD i []) headerLen
      | none => padRow (dataRows.getD i []) headerLen := by
  have hlp : i < (updatedPairs quotes headerLen tIdx sIdx pIdx vIdx dataRows).length := by
    simpa [updatedPairs] using hi
  have hpairs : (updatedPairs quotes headerLen tIdx sIdx pIdx vIdx dataRows).getD i ([], none) =
      (padRow (dataRows.getD i []) headerLen, none) := by
    rw [updatedPairs, getD_map_of_lt _ _ _ _ [] hi,
      updateRow_of_no_quote _ _ _ _ _ _ _ hnq]
  cases aIdx with
  | none =>
    rw [reconcileRows]
    rw [getD_map_of_lt _ _ _ _ ([], none) hlp, hpairs]
  | some a =>
    rw [reconcileRows]
    by_cases hpos :
        JSNum.gt (totalOf (updatedPairs quotes headerLen tIdx sIdx pIdx vIdx dataRows))
          (JSNum.fin 0) = true
    · rw [if_pos hpos, getD_map_of_lt _ _ _ _ ([], none) hlp, hpairs]
      simp only [Option.getD_none]
      rw [format_zero_allocation _ hpos]
      exact (if_pos hpos).symm
    · rw [if_neg hpos, getD_map_of_lt _ _ _ _ ([], none) hlp, hpairs]
      exact (if_neg hpos).symm

/-- C2 witness: a concrete unmatched row (`XXXX` has no quote) in a
table with no allocation column is returned exactly padded. -/
theorem c2_unmatched_row_witness :
    (1 < ([["AAPL", "10", ""], ["XXXX", "7", ""]] : List (List String)).length) ∧
    mapGet exampleQuotesC1 (normalizeSymbol (([["AAPL", "10", ""],
      ["XXXX", "7", ""]].getD 1 []).getD 0 "")) = none ∧
    (reconcileRows exampleQuotesC1 3 0 1 none (some 2) none
        [["AAPL", "10", ""], ["XXXX", "7", ""]]).getD 1 [] =
      padRow ["XXXX", "7", ""] 3 := by
  refine ⟨by decide, by decide, ?_⟩
  rw [c2_unmatched_row exampleQuotesC1 3 0 1 none (some 2) none
    [["AAPL", "10", ""], ["XXXX", "7", ""]] 1 (by decide) (by decide)]
  decide

/-- C3: when the allocation role is present and the summed total is
strictly positive, the engine writes
`formatFixed(rowValue / total × 100)` into the allocation column of
every row (an unmatched row's value reading as 0). -/
theorem c3_allocation_cells (quotes : QuoteMap) (headerLen tIdx sIdx : Nat)
    (pIdx vIdx : Option Nat) (a : Nat) (dataRows : List (List String)) (i : Nat)
    (hi : i < dataRows.length) (ha : a < headerLen)
    (hpos : JSNum.gt (totalOf (updatedPairs quotes headerLen tIdx sIdx pIdx vIdx dataRows))
      (JSNum.fin 0) = true) :
    ((reconcileRows quotes headerLen tIdx sIdx pIdx vIdx (some a) dataRows).getD i []).getD a "" =
      formatNumber (JSNum.mul (JSNum.div
        (((updatedPairs quotes headerLen tIdx sIdx pIdx vIdx dataRows).getD i
            ([], none)).2.getD (JSNum.fin 0))
        (totalOf (updatedPairs quotes headerLen tIdx sIdx pIdx vIdx dataRows)))
        (JSNum.fin 100)) 2 := by
  have hlp : i < (updatedPairs quotes headerLen tIdx sIdx pIdx vIdx dataRows).length := by
    simpa [updatedPairs] using hi
  have hlen : a < (((updatedPairs quotes headerLen tIdx sIdx pIdx vIdx dataRows).getD i
      ([], none)).1).length := by
    rw [updatedPairs, getD_map_of_lt _ _ _ _ [] hi]
    exact lt_of_lt_of_le ha (updateRow_fst_length quotes headerLen tIdx sIdx pIdx vIdx _)
  rw [reconcileRows]
  simp only [if_pos hpos]
  rw [getD_map_of_lt _ _ _ _ ([], none) hlp, List.getD_eq_getElem?_getD,
    List.getElem?_set_self hlen]
  rfl

/-- C3 witness: for the two-row table valued 1500 and 500, the
allocation cells become `75.00` and `25.00`. -/
theorem c3_allocation_cells_witness :
    ((reconcileRows exampleQuotesC3 4 0 1 none (some 2) (some 3)
        exampleRowsC3).getD 0 []).getD 3 "" = "75.00" ∧
    ((reconcileRows exampleQuotesC3 4 0 1 none (some 2) (some 3)
        exampleRowsC3).getD 1 []).getD 3 "" = "25.00" := by
  constructor
  · rw [c3_allocation_cells exampleQuotesC3 4 0 1 none (some 2) 3 exampleRowsC3 0
      (by decide) (by decide) (by decide)]
    decide
  · rw [c3_allocation_cells exampleQuotesC3 4 0 1 none (some 2) 3 exampleRowsC3 1
      (by decide) (by decide) (by decide)]
    decide

/-- C6: when the located table's header resolves no ticker-role column
or no shares-role column, `updatePortfolioTable` reports the
required-column-missing error and terminates before any replacement —
the command returns without calling `replaceSelection`/`setValue`, so
the document text is completely unchanged. -/
theorem c6_required_column_missing (y0 y1 : YahooOutcome)
    (sf : String → Option String) (dp : String → Option Int)
    (targetText : String) (s e : Nat) (header : List String)
    (hloc : locateTable ((splitOnChar '\n' targetText.data).map String.mk) =
      some (s, e, header))
    (hmiss : headerIndex header tickerNames = none ∨
      headerIndex header sharesNames = none) :
    updatePortfolioTable y0 y1 sf dp targetText =
      Except.error UpdateError.requiredColumnMissing := by
  rw [updatePortfolioTable, hloc]
  simp only
  rcases hmiss with h | h
  · rw [h]
  · rw [h]
    cases headerIndex header tickerNames <;> rfl

/-- C6 witness: a table with no shares column yields the
required-column-missing error. -/
theorem c6_required_column_missing_witness :
    updatePortfolioTable (YahooOutcome.threw "a") (YahooOutcome.threw "b")
      (fun _ => none) (fun _ => none)
      "| Ticker | Value |\n|---|---|\n| AAPL | 1 |" =
      Except.error UpdateError.requiredColumnMissing := by
  exact c6_required_column_missing (YahooOutcome.threw "a") (YahooOutcome.threw "b")
    (fun _ => none) (fun _ => none) "| Ticker | Value |\n|---|---|\n| AAPL | 1 |"
    0 2 ["Ticker", "Value"] (by decide) (Or.inr (by decide))

/-! #### Fetch fallback lemmas -/

/-- `Map.set` never empties a map. -/
theorem mapSet_ne_nil (m : QuoteMap) (k : String) (v : Quote) :
    mapSet m k v ≠ [] := by
  rw [mapSet]
  by_cases h : List.any m fun p => p.1 = k
  · rw [if_pos h]
    intro hc
    rw [List.map_eq_nil] at hc
    subst hc
    simp at h
  · rw [if_neg h]
    simp

/-- The Stooq accumulation step never empties a nonempty map. -/
theorem stooqFold_ne_nil (sf : String → Option String) (dp : String → Option Int)
    (syms : List String) (acc : QuoteMap) (hacc : acc ≠ []) :
    syms.foldl
      (fun m s2 => match fetchStooqQuote sf dp s2 with
        | some q => mapSet m (normalizeSymbol s2) q
        | none => m) acc ≠ [] := by
  induction syms generalizing acc with
  | nil => simpa using hacc
  | cons s2 rest ih =>
    rw [List.foldl_cons]
    cases h : fetchStooqQuote sf dp s2 with
    | none => simpa [h] using ih acc hacc
    | some q => simpa [h] using ih _ (mapSet_ne_nil acc (normalizeSymbol s2) q)

/-- The Stooq batch map is empty exactly when every symbol failed on
both spelling variants. -/
theorem fetchQuotesFromStooq_eq_nil_iff (sf : String → Option String)
    (dp : String → Option Int) (syms : List String) :
    fetchQuotesFromStooq sf dp syms = [] ↔
      ∀ s2 ∈ syms, fetchStooqQuote sf dp s2 = none := by
  rw [fetchQuotesFromStooq]
  have haux : ∀ (l : List String) (acc : QuoteMap),
      (l.foldl (fun m s2 => match fetchStooqQuote sf dp s2 with
        | some q => mapSet m (normalizeSymbol s2) q
        | none => m) acc = []) ↔
      (acc = [] ∧ ∀ s2 ∈ l, fetchStooqQuote sf dp s2 = none) := by
    intro l
    induction l with
    | nil => simp
    | cons s2 rest ih =>
      intro acc
      rw [List.foldl_cons]
      cases h : fetchStooqQuote sf dp s2 with
      | none =>
        rw [ih acc]
        simp [h]
      | some q =>
        constructor
        · intro hc
          exact absurd hc (stooqFold_ne_nil sf dp rest _
            (mapSet_ne_nil acc (normalizeSymbol s2) q))
        · rintro ⟨-, hall⟩
          exact absurd (hall s2 (by simp)) (by simp [h])
  rw [haux]
  simp

/-- C7: the two batch URLs are tried in order (success of the first
short-circuits, success of the second is used when the first fails); if
both fail the per-symbol Stooq fallback runs before any error surfaces
(a nonempty Stooq map is returned as the result); the call raises
exactly when both batch attempts fail AND every symbol fails under both
spelling variants, and the surfaced error is then the batch-provider
error recorded before the fallback (the last batch URL's); per symbol,
the first spelling variant that parses wins (the `.us` variant is not
consulted). -/
theorem c7_fetch_fallback (y0 y1 : YahooOutcome) (sf : String → Option String)
    (dp : String → Option Int) (symbols : List String)
    (hne : cleanedOf symbols ≠ []) :
    (∀ m, yahooAttempt y0 = Except.ok m →
      fetchQuotes y0 y1 sf dp symbols = Except.ok m) ∧
    (∀ e0 m, yahooAttempt y0 = Except.error e0 → yahooAttempt y1 = Except.ok m →
      fetchQuotes y0 y1 sf dp symbols = Except.ok m) ∧
    (∀ e0 e1, yahooAttempt y0 = Except.error e0 → yahooAttempt y1 = Except.error e1 →
      fetchQuotesFromStooq sf dp (cleanedOf symbols) ≠ [] →
      fetchQuotes y0 y1 sf dp symbols =
        Except.ok (fetchQuotesFromStooq sf dp (cleanedOf symbols))) ∧
    (∀ e0 e1, yahooAttempt y0 = Except.error e0 → yahooAttempt y1 = Except.error e1 →
      (∀ s2 ∈ cleanedOf symbols, fetchStooqQuote sf dp s2 = none) →
      fetchQuotes y0 y1 sf dp symbols = Except.error e1) ∧
    ((∃ err, fetchQuotes y0 y1 sf dp symbols = Except.error err) ↔
      ((∃ e0, yahooAttempt y0 = Except.error e0) ∧
       (∃ e1, yahooAttempt y1 = Except.error e1) ∧
       ∀ s2 ∈ cleanedOf symbols, fetchStooqQuote sf dp s2 = none)) ∧
    (∀ sym q, stooqTryCandidate sf dp (normalizeSymbol sym)
        (jsToLower (normalizeSymbol sym)) = some q →
      fetchStooqQuote sf dp sym = some q) := by
  have hempty : (cleanedOf symbols).isEmpty = false := by
    cases h : cleanedOf symbols
    · exact absurd h hne
    · rfl
  have hunfold : fetchQuotes y0 y1 sf dp symbols =
      (match yahooAttempt y0 with
       | .ok m => .ok m
       | .error _ =>
         match yahooAttempt y1 with
         | .ok m => .ok m
         | .error e1 =>
           if 0 < (fetchQuotesFromStooq sf dp (cleanedOf symbols)).length then
             .ok (fetchQuotesFromStooq sf dp (cleanedOf symbols))
           else .error e1) := by
    rw [fetchQuotes, hempty]
    rfl
  refine ⟨?_, ?_, ?_, ?_, ?_, ?_⟩
  · intro m h0
    rw [hunfold, h0]
  · intro e0 m h0 h1
    rw [hunfold, h0, h1]
  · intro e0 e1 h0 h1 hs
    have : 0 < (fetchQuotesFromStooq sf dp (cleanedOf symbols)).length :=
      List.length_pos.mpr hs
    rw [hunfold, h0, h1]
    simp [this]
  · intro e0 e1 h0 h1 hall
    have hnil : fetchQuotesFromStooq sf dp (cleanedOf symbols) = [] :=
      (fetchQuotesFromStooq_eq_nil_iff sf dp (cleanedOf symbols)).mpr hall
    rw [hunfold, h0, h1, hnil]
    simp
  · constructor
    · rintro ⟨err, herr⟩
      cases h0 : yahooAttempt y0 with
      | ok m =>
        have hval : fetchQuotes y0 y1 sf dp symbols = Except.ok m := by
          rw [hunfold, h0]
        rw [hval] at herr
        exact absurd herr (by simp)
      | error e0 =>
        cases h1 : yahooAttempt y1 with
        | ok m =>
          have hval : fetchQuotes y0 y1 sf dp symbols = Except.ok m := by
            rw [hunfold, h0, h1]
          rw [hval] at herr
          exact absurd herr (by simp)
        | error e1 =>
          have hval : fetchQuotes y0 y1 sf dp symbols =
              (if 0 < (fetchQuotesFromStooq sf dp (cleanedOf symbols)).length then
                Except.ok (fetchQuotesFromStooq sf dp (cleanedOf symbols))
              else Except.error e1) := by
            rw [hunfold, h0, h1]
          rw [hval] at herr
          refine ⟨⟨e0, rfl⟩, ⟨e1, rfl⟩, ?_⟩
          rw [← fetchQuotesFromStooq_eq_nil_iff sf dp]
          by_contra hnn
          rw [if_pos (List.length_pos.mpr hnn)] at herr
          exact absurd herr (by simp)
    · rintro ⟨⟨e0, h0⟩, ⟨e1, h1⟩, hall⟩
      have hnil : fetchQuotesFromStooq sf dp (cleanedOf symbols) = [] :=
        (fetchQuotesFromStooq_eq_nil_iff sf dp (cleanedOf symbols)).mpr hall
      refine ⟨e1, ?_⟩
      rw [hunfold, h0, h1, hnil]
      simp
  · intro sym q hq
    rw [fetchStooqQuote, hq]
    rfl

/-- C7 witness: both batch URLs throw and the only symbol fails on both
Stooq variants, so the call surfaces the second batch URL's error. -/
theorem c7_fetch_fallback_witness :
    cleanedOf ["AAPL"] ≠ [] ∧
    fetchQuotes (YahooOutcome.threw "e0") (YahooOutcome.threw "e1")
      (fun _ => none) (fun _ => none) ["AAPL"] = Except.error "e1" := by
  refine ⟨by decide, ?_⟩
  exact (c7_fetch_fallback (YahooOutcome.threw "e0") (YahooOutcome.threw "e1")
    (fun _ => none) (fun _ => none) ["AAPL"] (by decide)).2.2.2.1 "e0" "e1"
    rfl rfl (by decide)

/-! #### Adapter invariant lemmas -/

/-- A quote built from `parseNumber` results and an integer timestamp
satisfies the finiteness invariant. -/
theorem stooq_quote_finite (syn : String) (a b c2 d : Option Frac)
    (u : Option Int) :
    quoteNumFieldsFinite
      { symbol := syn,
        regularMarketPrice := a.map JSNum.fin,
        regularMarketDayLow := b.map JSNum.fin,
        regularMarketDayHigh := c2.map JSNum.fin,
        regularMarketVolume := d.map JSNum.fin,
        regularMarketTime := u.map fun t => JSNum.fin ⟨Int.fdiv t 1000, 1⟩ } = true := by
  rw [quoteNumFieldsFinite, numFieldsOf]
  cases a <;> cases b <;> cases c2 <;> cases d <;> cases u <;>
    simp [optNumFinite, JSNum.isFiniteB]

/-- An element of `mapSet m k v` is an element of `m` or the new pair. -/
theorem mem_mapSet (m : QuoteMap) (k : String) (v : Quote)
    (p : String × Quote) (hp : p ∈ mapSet m k v) : p ∈ m ∨ p = (k, v) := by
  rw [mapSet] at hp
  by_cases h : List.any m fun q => q.1 = k
  · rw [if_pos h] at hp
    rcases List.mem_map.mp hp with ⟨x, hx, hxp⟩
    by_cases hxk : x.1 = k
    · right
      rw [← hxp, if_pos hxk]
    · left
      rw [← hxp, if_neg hxk]
      exact hx
  · rw [if_neg h] at hp
    rcases List.mem_append.mp hp with h' | h'
    · exact Or.inl h'
    · exact Or.inr (by simpa using h')

/-- C8 counterexample: the Finnhub adapter only type-checks the current
price, so a response whose `c` is `Infinity` (e.g. a JSON number beyond
double range) yields a constructed `Quote` whose populated
`regularMarketPrice` is not finite — the invariant is not enforced by
that adapter. -/
theorem c8_claim_false :
    (fetchFinnhubQuote "AAPL"
        (some { status := 200, c := some JSNum.inf })).map quoteNumFieldsFinite =
      some false := by
  decide

/-- C8 (amended): the Stooq fallback adapter guarantees the invariant
(every populated numeric field of a quote it constructs is finite, and
absent data is `none`), because its fields pass through `parseNumber`'s
finiteness filter; the Finnhub and Yahoo batch adapters copy provider
numbers unvalidated, so their quotes satisfy the invariant exactly when
every numeric field of the provider response is finite or absent. -/
theorem c8_adapter_finiteness :
    (∀ (sf : String → Option String) (dp : String → Option Int)
        (sym : String) (q : Quote),
      fetchStooqQuote sf dp sym = some q → quoteNumFieldsFinite q = true) ∧
    (∀ (sym : String) (r : FinnhubResp) (q : Quote),
      finnhubRespFinite r = true → fetchFinnhubQuote sym (some r) = some q →
      quoteNumFieldsFinite q = true) ∧
    (∀ (qs : List Quote) (m : QuoteMap),
      (∀ q ∈ qs, quoteNumFieldsFinite q = true) →
      yahooAttempt (YahooOutcome.ok qs) = Except.ok m →
      ∀ p ∈ m, quoteNumFieldsFinite p.2 = true) := by
  have hstooqTry : ∀ (sf : String → Option String) (dp : String → Option Int)
      (nrm cand : String) (q : Quote),
      stooqTryCandidate sf dp nrm cand = some q → quoteNumFieldsFinite q = true := by
    intro sf dp nrm cand q h
    rw [stooqTryCandidate] at h
    cases hresp : sf cand with
    | none => rw [hresp] at h; exact absurd h (by simp)
    | some text =>
      rw [hresp] at h
      simp only at h
      split at h
      · exact absurd h (by simp)
      · split at h
        · exact absurd h (by simp)
        · rw [Option.some.injEq] at h
          subst h
          exact stooq_quote_finite nrm _ _ _ _ _
  refine ⟨?_, ?_, ?_⟩
  · intro sf dp sym q h
    rw [fetchStooqQuote] at h
    cases h1 : stooqTryCandidate sf dp (normalizeSymbol sym)
        (jsToLower (normalizeSymbol sym)) with
    | some q' =>
      rw [h1] at h
      simp only [Option.some_orElse] at h
      rw [Option.some.injEq] at h
      subst h
      exact hstooqTry sf dp _ _ q' h1
    | none =>
      rw [h1] at h
      simp only [Option.none_orElse] at h
      exact hstooqTry sf dp _ _ q h
  · intro sym r q hr h
    rw [fetchFinnhubQuote] at h
    split at h
    · exact absurd h (by simp)
    · cases hc : r.c with
      | none => rw [hc] at h; exact absurd h (by simp)
      | some c =>
        rw [hc, Option.some.injEq] at h
        subst h
        rw [finnhubRespFinite] at hr
        simp only [List.all_cons, List.all_nil, Bool.and_true, Bool.and_eq_true] at hr
        rw [quoteNumFieldsFinite, numFieldsOf]
        simp only [List.all_cons, List.all_nil, Bool.and_true, Bool.and_eq_true]
        have hcfin : optNumFinite (some c) = true := by
          rw [← hc]
          exact hr.1
        refine ⟨rfl, rfl, hcfin, hr.2.2.2.2.1, hr.2.2.1, hr.2.1, rfl, rfl, rfl, rfl,
          hr.2.2.2.2.2⟩
  · intro qs m hall hm p hp
    rw [yahooAttempt, Except.ok.injEq] at hm
    subst hm
    have haux : ∀ (l : List Quote) (acc : QuoteMap),
        (∀ p2 ∈ acc, quoteNumFieldsFinite p2.2 = true) →
        (∀ q ∈ l, quoteNumFieldsFinite q = true) →
        ∀ p2 ∈ l.foldl (fun m2 q =>
            if q.symbol ≠ "" then mapSet m2 (jsToUpper q.symbol) q else m2) acc,
          quoteNumFieldsFinite p2.2 = true := by
      intro l
      induction l with
      | nil => intro acc hacc _ p2 hp2; exact hacc p2 hp2
      | cons q rest ih =>
        intro acc hacc hl p2 hp2
        rw [List.foldl_cons] at hp2
        by_cases hq : q.symbol ≠ ""
        · rw [if_pos hq] at hp2
          refine ih _ ?_ (fun x hx => hl x (by simp [hx])) p2 hp2
          intro p3 hp3
          rcases mem_mapSet _ _ _ p3 hp3 with h' | h'
          · exact hacc p3 h'
          · rw [h']
            exact hl q (by simp)
        · rw [if_neg hq] at hp2
          exact ih _ hacc (fun x hx => hl x (by simp [hx])) p2 hp2
    exact haux qs [] (by simp) hall p hp

/-- C8 witness: a Stooq response parses to a quote satisfying the
invariant. -/
theorem c8_adapter_finiteness_witness :
    fetchStooqQuote (fun c => if c = "aapl" then some "symbol,close\nAAPL.US,150.5" else none)
        (fun _ => none) "AAPL" =
      some { symbol := "AAPL", regularMarketPrice := some (JSNum.fin ⟨1505, 10⟩) } ∧
    quoteNumFieldsFinite
      { symbol := "AAPL", regularMarketPrice := some (JSNum.fin ⟨1505, 10⟩) } = true := by
  refine ⟨by decide, ?_⟩
  exact c8_adapter_finiteness.1
    (fun c => if c = "aapl" then some "symbol,close\nAAPL.US,150.5" else none)
    (fun _ => none) "AAPL" _ (by decide)

/-- C9: `parseNumber` strips currency/percent/whitespace/thousands
separators and parses the remainder as a decimal number —
`parseNumber("$1,234.50")` is `1234.5`, `parseNumber("")` is absent,
`parseNumber("N/A")` is absent; whenever the stripped remainder parses
to NaN the result is absent, and every returned value is a finite
number produced by the parse.  The function is total (it never
raises). -/
theorem c9_parse_number :
    (parseNumber "$1,234.50").map Frac.toRat = some ((1234.5 : ℚ)) ∧
    parseNumber "" = none ∧
    parseNumber "N/A" = none ∧
    (∀ s2, jsParseFloat (stripMoneyChars s2) = JSNum.nan → parseNumber s2 = none) ∧
    (∀ s2 q, parseNumber s2 = some q →
      jsParseFloat (stripMoneyChars s2) = JSNum.fin q) := by
  refine ⟨?_, by decide, by decide, ?_, ?_⟩
  · have hval : parseNumber "$1,234.50" = some ⟨123450, 100⟩ := by decide
    rw [hval, Option.map_some']
    rw [show Frac.toRat ⟨123450, 100⟩ = ((123450 : ℚ) / (100 : ℚ)) from rfl]
    norm_num
  · intro s2 h
    rw [parseNumber]
    by_cases he : s2 = ""
    · rw [if_pos he]
    · rw [if_neg he, h]
  · intro s2 q h
    rw [parseNumber] at h
    by_cases he : s2 = ""
    · rw [if_pos he] at h
      exact absurd h (by simp)
    · rw [if_neg he] at h
      cases hp : jsParseFloat (stripMoneyChars s2) with
      | fin q' =>
        rw [hp] at h
        rw [Option.some.injEq] at h
        rw [h]
      | nan => rw [hp] at h; exact absurd h (by simp)
      | inf => rw [hp] at h; exact absurd h (by simp)
      | ninf => rw [hp] at h; exact absurd h (by simp)

/-- C9 witness: `N/A` parses to NaN after stripping, so the result is
absent. -/
theorem c9_parse_number_witness :
    jsParseFloat (stripMoneyChars "N/A") = JSNum.nan ∧ parseNumber "N/A" = none := by
  refine ⟨by decide, ?_⟩
  exact c9_parse_number.2.2.2.1 "N/A" (by decide)

/-- A numeric field holding the value 0 is falsy under JS truthiness,
so every `if (field)` guard in the callout treats it like an absent field. -/
theorem truthyN_zero (z : Frac) (hz : z.isZero = true) :
    truthyN (some (JSNum.fin z)) = false := by
  simp [truthyN, JSNum.jsTruthy, hz]

/-- An absent numeric field is falsy. -/
theorem truthyN_none : truthyN none = false := rfl

/-- Congruence for the no-bid-ask subtitle: it only depends on the previous
close and the price chain through truthiness and the truthy values. -/
theorem subtitleNoBidAsk_congr (pc1 pc2 p1 p2 : Option JSNum) (ns : JSNum → String)
    (hpceq : truthyN pc1 = truthyN pc2)
    (hpcv : truthyN pc1 = true → pc1 = pc2)
    (hpeq : truthyN pc1 = false → truthyN p1 = truthyN p2)
    (hpv : truthyN pc1 = false → truthyN p1 = true → p1 = p2) :
    subtitleNoBidAsk pc1 p1 ns = subtitleNoBidAsk pc2 p2 ns := by
  rw [subtitleNoBidAsk, subtitleNoBidAsk]
  by_cases h1 : truthyN pc1 = true
  · rw [if_pos h1, if_pos (hpceq ▸ h1), hpcv h1]
  · have h1' : truthyN pc1 = false := by
      cases h : truthyN pc1
      · rfl
      · exact absurd h h1
    rw [if_neg h1, if_neg (show ¬truthyN pc2 = true by rw [← hpceq]; exact h1)]
    by_cases h2 : truthyN p1 = true
    · rw [if_pos h2, hpv h1' h2,
        if_pos (show truthyN p2 = true by rw [← hpeq h1']; exact h2)]
    · rw [if_neg h2, if_neg (show ¬truthyN p2 = true by rw [← hpeq h1']; exact h2)]

/-- C10: in the callout rendering of a single quote, a numeric field whose
value equals 0 is rendered exactly as if it were absent — with bid = 0 (or,
symmetrically, ask = 0) the bid/ask/spread subtitle is omitted and the callout
falls back to the no-bid-ask subtitle, with previousClose = 0 the
previous-close subtitle and field line are omitted, with volume = 0 the volume
line is omitted, and with timestamp = 0 the trailing timestamp line is
omitted; whereas single-field extraction (`get-single-stock-value`) of a field
whose value is 0 still outputs the formatted "0" rather than reporting the
field absent. -/
theorem c10_zero_field_rendering (ticker : String) (q : Quote)
    (ns ls ds : JSNum → String) :
    (∀ z : Frac, z.isZero = true → q.bid = some (JSNum.fin z) →
      renderCallout ticker q ns ls ds =
        renderCallout ticker { q with bid := none } ns ls ds) ∧
    (∀ z : Frac, z.isZero = true → q.ask = some (JSNum.fin z) →
      renderCallout ticker q ns ls ds =
        "> [!info]- " ++ normalizeSymbol ticker ++ " " ++
          subtitleNoBidAsk q.regularMarketPreviousClose
            (q.regularMarketPrice <|> q.ask <|> q.bid <|>
              q.regularMarketPreviousClose) ns ++
          calloutBody q ns ls ds) ∧
    (∀ z : Frac, z.isZero = true → q.regularMarketPreviousClose = some (JSNum.fin z) →
      renderCallout ticker q ns ls ds =
        renderCallout ticker { q with regularMarketPreviousClose := none } ns ls ds) ∧
    (∀ z : Frac, z.isZero = true → q.regularMarketVolume = some (JSNum.fin z) →
      renderCallout ticker q ns ls ds =
        renderCallout ticker { q with regularMarketVolume := none } ns ls ds) ∧
    (∀ z : Frac, z.isZero = true → q.regularMarketTime = some (JSNum.fin z) →
      renderCallout ticker q ns ls ds =
        renderCallout ticker { q with regularMarketTime := none } ns ls ds) ∧
    (∀ z : Frac, z.isZero = true → ns (JSNum.fin z) = "0" →
      q.bid = some (JSNum.fin z) →
      getSingleStockValue q "bid" ns ls = some "0") := by
  refine ⟨?_, ?_, ?_, ?_, ?_, ?_⟩
  · intro z hz hb
    rw [renderCallout, renderCallout]
    have hbody : calloutBody { q with bid := none } ns ls ds =
        calloutBody q ns ls ds := rfl
    rw [hbody]
    congr 2
    dsimp only
    rw [subtitlePart, subtitlePart, hb, truthyN_zero z hz, truthyN_none]
    rw [if_neg (by simp), if_neg (by simp)]
    apply subtitleNoBidAsk_congr
    · rfl
    · intro _; rfl
    · intro hpcf
      rcases hrmp : q.regularMarketPrice with _ | x
      · rcases hask : q.ask with _ | y
        · simp only [Option.none_orElse, Option.some_orElse]
          rw [truthyN_zero z hz, hpcf]
        · simp only [Option.none_orElse, Option.some_orElse]
      · simp only [Option.some_orElse]
    · intro hpcf hp1
      rcases hrmp : q.regularMarketPrice with _ | x
      · rcases hask : q.ask with _ | y
        · rw [hrmp, hask] at hp1
          simp only [Option.none_orElse, Option.some_orElse] at hp1
          rw [truthyN_zero z hz] at hp1
          exact absurd hp1 (by simp)
        · simp only [Option.none_orElse, Option.some_orElse]
      · simp only [Option.some_orElse]
  · intro z hz ha
    rw [renderCallout]
    congr 2
    rw [subtitlePart, ha, truthyN_zero z hz]
    rw [if_neg (by simp)]
  · intro z hz hpc
    rw [renderCallout, renderCallout]
    dsimp only
    have hbody : calloutBody { q with regularMarketPreviousClose := none } ns ls ds =
        calloutBody q ns ls ds := by
      rw [calloutBody, calloutBody]
      dsimp only
      rw [hpc, truthyN_zero z hz, truthyN_none]
      simp
    rw [hbody]
    congr 2
    rw [subtitlePart, subtitlePart, hpc]
    by_cases hba : (truthyN q.bid && truthyN q.ask) = true
    · rw [if_pos hba, if_pos hba]
    · rw [if_neg hba, if_neg hba]
      apply subtitleNoBidAsk_congr
      · rw [truthyN_zero z hz, truthyN_none]
      · intro h1
        rw [truthyN_zero z hz] at h1
        exact absurd h1 (by simp)
      · intro _
        rcases hrmp : q.regularMarketPrice with _ | x
        · rcases hask : q.ask with _ | y
          · rcases hbid : q.bid with _ | w
            · simp only [Option.none_orElse]
              rw [truthyN_zero z hz, truthyN_none]
            · simp only [Option.none_orElse, Option.some_orElse]
          · simp only [Option.none_orElse, Option.some_orElse]
        · simp only [Option.some_orElse]
      · intro _ hp1
        rcases hrmp : q.regularMarketPrice with _ | x
        · rcases hask : q.ask with _ | y
          · rcases hbid : q.bid with _ | w
            · rw [hrmp, hask, hbid] at hp1
              simp only [Option.none_orElse] at hp1
              rw [truthyN_zero z hz] at hp1
              exact absurd hp1 (by simp)
            · simp only [Option.none_orElse, Option.some_orElse]
          · simp only [Option.none_orElse, Option.some_orElse]
        · simp only [Option.some_orElse]
  · intro z hz hv
    rw [renderCallout, renderCallout]
    dsimp only
    congr 1
    rw [calloutBody, calloutBody]
    dsimp only
    rw [hv, truthyN_zero z hz, truthyN_none]
    simp
  · intro z hz ht
    rw [renderCallout, renderCallout]
    dsimp only
    congr 1
    rw [calloutBody, calloutBody]
    dsimp only
    rw [ht, truthyN_zero z hz, truthyN_none]
    simp
  · intro z hz hns hb
    rw [getSingleStockValue, stockDataLookup]
    rw [if_neg (by decide), if_neg (by decide), if_pos rfl, hb]
    simp only [Option.map_some']
    rw [if_neg (by decide), if_neg (by decide)]
    rw [jsPrimToString, hns]

theorem c10_zero_field_rendering_witness :
    renderCallout "T" { symbol := "T", bid := some (JSNum.fin 0) }
        (fun _ => "0") (fun _ => "x") (fun _ => "y") =
      renderCallout "T"
        { { symbol := "T", bid := some (JSNum.fin 0) : Quote } with bid := none }
        (fun _ => "0") (fun _ => "x") (fun _ => "y") ∧
    getSingleStockValue { symbol := "T", bid := some (JSNum.fin 0) } "bid"
        (fun _ => "0") (fun _ => "x") = some "0" :=
  ⟨(c10_zero_field_rendering "T" { symbol := "T", bid := some (JSNum.fin 0) }
      (fun _ => "0") (fun _ => "x") (fun _ => "y")).1 0 (by decide) rfl,
   (c10_zero_field_rendering "T" { symbol := "T", bid := some (JSNum.fin 0) }
      (fun _ => "0") (fun _ => "x") (fun _ => "y")).2.2.2.2.2 0 (by decide) rfl rfl⟩

end StockInfo
